import Mathlib

/-!
Verification development for the browser G-code art generator (`script.js`).

Real-valued quantities of the source (JS doubles) are modelled as real
numbers and integer quantities as `Nat`/`Int`.  G-code emission is modelled
as a list of instructions carrying the real arguments of the emitted line;
the decimal text formatting (`toFixed`) of the final output string is
outside the model.  Each definition mirrors one source function and keeps
its name.
-/

namespace GArt

/-- One iteration of the loop body of `hilbert(order, d)` (script.js lines
245-259) at scale `s`: `rx = 1 & (t / 2)` and `ry = 1 & (t ^ rx)` are the
bits `t / 2 % 2` and `(t ^^^ rx) % 2`; if `ry = 0` the accumulated cell is
reflected (when `rx = 1`) and then swapped, and finally the `s`-offsets are
added.  Coordinates are JS numbers holding integers, modelled as `ℤ`. -/
def hilbertStep (s : ℤ) (t : ℕ) (p : ℤ × ℤ) : ℤ × ℤ :=
  let rx : ℕ := t / 2 % 2
  let ry : ℕ := (t ^^^ rx) % 2
  let p1 : ℤ × ℤ :=
    if ry = 0 then
      let p0 : ℤ × ℤ := if rx = 1 then (s - 1 - p.1, s - 1 - p.2) else p
      (p0.2, p0.1)
    else p
  (p1.1 + s * (rx : ℤ), p1.2 + s * (ry : ℤ))

/-- The loop `for (s = 1; s < n; s *= 2)` of `hilbert` with `n = 2^order`
runs exactly `order` times; `hilbertGo k s t p` runs the remaining `k`
iterations from scale `s`, index remainder `t` and accumulated cell `p`. -/
def hilbertGo : ℕ → ℤ → ℕ → ℤ × ℤ → ℤ × ℤ
  | 0, _, _, p => p
  | k + 1, s, t, p => hilbertGo k (s * 2) (t / 4) (hilbertStep s t p)

/-- Model of `hilbert(order, d)` from script.js lines 238-261: maps a linear index
`d` to a cell of the `2^order × 2^order` grid. -/
def hilbert (order d : ℕ) : ℤ × ℤ := hilbertGo order 1 d (0, 0)

/-- The grid of side `2^o` that the curve of order `o` fills. -/
def gridSet (o : ℕ) : Set (ℤ × ℤ) :=
  {p : ℤ × ℤ | 0 ≤ p.1 ∧ p.1 < 2 ^ o ∧ 0 ≤ p.2 ∧ p.2 < 2 ^ o}

theorem mem_gridSet (o : ℕ) (x y : ℤ) :
    (x, y) ∈ gridSet o ↔ 0 ≤ x ∧ x < 2 ^ o ∧ 0 ≤ y ∧ y < 2 ^ o := Iff.rfl

/-- Manhattan distance between two grid cells. -/
def manhattanDist (p q : ℤ × ℤ) : ℤ := |p.1 - q.1| + |p.2 - q.2|

/-- Chebyshev distance between two grid cells. -/
def chebyshevDist (p q : ℤ × ℤ) : ℤ := max |p.1 - q.1| |p.2 - q.2|

/-- Verification inverse of the curve: recovers the index from a grid
cell.  (Proof artefact, not part of the source.) -/
def hilbertInv : ℕ → ℤ × ℤ → ℕ
  | 0, _ => 0
  | o + 1, p =>
      if p.2 < 2 ^ o then
        if p.1 < 2 ^ o then hilbertInv o (p.2, p.1)
        else 3 * 4 ^ o + hilbertInv o (2 ^ o - 1 - p.2, 2 * 2 ^ o - 1 - p.1)
      else
        if p.1 < 2 ^ o then 4 ^ o + hilbertInv o (p.1, p.2 - 2 ^ o)
        else 2 * 4 ^ o + hilbertInv o (p.1 - 2 ^ o, p.2 - 2 ^ o)

theorem nat_xor_mod_two (a b : ℕ) : (a ^^^ b) % 2 = a % 2 ^^^ b % 2 := by
  rw [← Nat.and_one_is_mod, ← Nat.and_one_is_mod, ← Nat.and_one_is_mod,
    Nat.and_xor_distrib_right]

/-- The loop body only reads the two low bits of `t`. -/
theorem hilbertStep_mod (s : ℤ) (t : ℕ) (p : ℤ × ℤ) :
    hilbertStep s t p = hilbertStep s (t % 4) p := by
  have h1 : t % 4 / 2 % 2 = t / 2 % 2 := by omega
  have h3 : (t ^^^ t / 2 % 2) % 2 = (t % 4 ^^^ t / 2 % 2) % 2 := by
    rw [nat_xor_mod_two, nat_xor_mod_two]
    have h4 : t % 2 = t % 4 % 2 := by omega
    rw [← h4]
  simp only [hilbertStep, h1, h3]

theorem hilbertStep_zero (s : ℤ) (p : ℤ × ℤ) :
    hilbertStep s 0 p = (p.2, p.1) := by
  simp [hilbertStep]

theorem hilbertStep_one (s : ℤ) (p : ℤ × ℤ) :
    hilbertStep s 1 p = (p.1, p.2 + s) := by
  have h : ((1 : ℕ) ^^^ 0) % 2 = 1 := by decide
  simp [hilbertStep, h]

theorem hilbertStep_two (s : ℤ) (p : ℤ × ℤ) :
    hilbertStep s 2 p = (p.1 + s, p.2 + s) := by
  have h : ((2 : ℕ) ^^^ 1) % 2 = 1 := by decide
  simp [hilbertStep, h]

theorem hilbertStep_three (s : ℤ) (p : ℤ × ℤ) :
    hilbertStep s 3 p = (2 * s - 1 - p.2, s - 1 - p.1) := by
  have h : ((3 : ℕ) ^^^ 1) % 2 = 0 := by decide
  simp [hilbertStep, h]
  ring

/-- Peeling the last iteration of the loop. -/
theorem hilbertGo_last (k : ℕ) (s : ℤ) (t : ℕ) (p : ℤ × ℤ) :
    hilbertGo (k + 1) s t p =
      hilbertStep (s * 2 ^ k) (t / 4 ^ k) (hilbertGo k s t p) := by
  induction k generalizing s t p with
  | zero => simp [hilbertGo]
  | succ k ih =>
      have hfront : hilbertGo (k + 2) s t p =
          hilbertGo (k + 1) (s * 2) (t / 4) (hilbertStep s t p) := rfl
      rw [hfront, ih]
      have hs : s * 2 * 2 ^ k = s * 2 ^ (k + 1) := by ring
      have ht : t / 4 / 4 ^ k = t / 4 ^ (k + 1) := by
        rw [Nat.div_div_eq_div_mul, pow_succ]
        ring_nf
      rw [hs, ht]
      rfl

/-- The top-quadrant recursion satisfied by `hilbert`. -/
theorem hilbert_succ (o d : ℕ) :
    hilbert (o + 1) d = hilbertStep ((2 : ℤ) ^ o) (d / 4 ^ o) (hilbert o d) := by
  unfold hilbert
  rw [hilbertGo_last, one_mul]

/-- The map `hilbert o` only reads the low `2 o` bits of the index. -/
theorem hilbert_mod (o d : ℕ) : hilbert o d = hilbert o (d % 4 ^ o) := by
  induction o generalizing d with
  | zero => rfl
  | succ o ih =>
      rw [hilbert_succ, hilbert_succ]
      have h1 : d % 4 ^ (o + 1) / 4 ^ o = d / 4 ^ o % 4 := by
        rw [pow_succ, Nat.mod_mul_right_div_self]
      have h2 : hilbert o (d % 4 ^ (o + 1)) = hilbert o (d % 4 ^ o) := by
        rw [ih (d % 4 ^ (o + 1)), Nat.mod_mod_of_dvd _ (pow_dvd_pow 4 (Nat.le_succ o))]
      rw [h1, h2, ih d]
      exact hilbertStep_mod _ _ _

/-- The cell `hilbert (o+1) d` splits into a quadrant code and a reduced index. -/
theorem hilbert_quadrant (o d : ℕ) :
    hilbert (o + 1) d =
      hilbertStep ((2 : ℤ) ^ o) (d / 4 ^ o) (hilbert o (d % 4 ^ o)) := by
  rw [hilbert_succ, hilbert_mod o d]

theorem quotient_lt_four (o d : ℕ) (hd : d < 4 ^ (o + 1)) : d / 4 ^ o < 4 := by
  apply Nat.div_lt_of_lt_mul
  calc d < 4 ^ (o + 1) := hd
  _ = 4 ^ o * 4 := by rw [pow_succ]

/-- Every index below `4^o` lands in the `2^o × 2^o` grid. -/
theorem hilbert_mem_grid (o : ℕ) :
    ∀ d : ℕ, d < 4 ^ o → hilbert o d ∈ gridSet o := by
  induction o with
  | zero =>
      intro d hd
      interval_cases d
      exact ⟨le_refl 0, by norm_num [hilbert, hilbertGo], le_refl 0,
        by norm_num [hilbert, hilbertGo]⟩
  | succ o ih =>
      intro d hd
      have hN : 0 < 4 ^ o := by positivity
      have hq4 : d / 4 ^ o < 4 := quotient_lt_four o d hd
      have hrN : d % 4 ^ o < 4 ^ o := Nat.mod_lt _ hN
      obtain ⟨h1, h2, h3, h4⟩ := ih (d % 4 ^ o) hrN
      rw [hilbert_quadrant]
      set p := hilbert o (d % 4 ^ o) with hpdef
      have hs : (0 : ℤ) < 2 ^ o := by positivity
      have h2o : ((2 : ℤ)) ^ (o + 1) = 2 * 2 ^ o := by ring
      set q := d / 4 ^ o with hq
      interval_cases q
      · rw [hilbertStep_zero]
        exact ⟨h3, show p.2 < 2 ^ (o + 1) by rw [h2o]; linarith,
          h1, show p.1 < 2 ^ (o + 1) by rw [h2o]; linarith⟩
      · rw [hilbertStep_one]
        exact ⟨h1, show p.1 < 2 ^ (o + 1) by rw [h2o]; linarith,
          show (0 : ℤ) ≤ p.2 + 2 ^ o by linarith,
          show p.2 + 2 ^ o < 2 ^ (o + 1) by rw [h2o]; linarith⟩
      · rw [hilbertStep_two]
        exact ⟨show (0 : ℤ) ≤ p.1 + 2 ^ o by linarith,
          show p.1 + 2 ^ o < 2 ^ (o + 1) by rw [h2o]; linarith,
          show (0 : ℤ) ≤ p.2 + 2 ^ o by linarith,
          show p.2 + 2 ^ o < 2 ^ (o + 1) by rw [h2o]; linarith⟩
      · rw [hilbertStep_three]
        exact ⟨show (0 : ℤ) ≤ 2 * 2 ^ o - 1 - p.2 by linarith,
          show 2 * 2 ^ o - 1 - p.2 < 2 ^ (o + 1) by rw [h2o]; linarith,
          show (0 : ℤ) ≤ 2 ^ o - 1 - p.1 by linarith,
          show (2 : ℤ) ^ o - 1 - p.1 < 2 ^ (o + 1) by rw [h2o]; linarith⟩

/-- The verification inverse recovers every index below `4^o`. -/
theorem hilbertInv_hilbert (o : ℕ) :
    ∀ d : ℕ, d < 4 ^ o → hilbertInv o (hilbert o d) = d := by
  induction o with
  | zero => intro d hd; interval_cases d; rfl
  | succ o ih =>
      intro d hd
      have hN : 0 < 4 ^ o := by positivity
      have hq4 : d / 4 ^ o < 4 := quotient_lt_four o d hd
      have hrN : d % 4 ^ o < 4 ^ o := Nat.mod_lt _ hN
      have hdqr : 4 ^ o * (d / 4 ^ o) + d % 4 ^ o = d := Nat.div_add_mod d _
      obtain ⟨h1, h2, h3, h4⟩ := hilbert_mem_grid o (d % 4 ^ o) hrN
      have hihr := ih (d % 4 ^ o) hrN
      rw [hilbert_quadrant]
      set p := hilbert o (d % 4 ^ o) with hpdef
      have hs : (0 : ℤ) < 2 ^ o := by positivity
      set q := d / 4 ^ o with hq
      interval_cases q
      · rw [hilbertStep_zero]
        simp only [hilbertInv]
        rw [if_pos (show (p.2, p.1).2 < 2 ^ o from h2),
          if_pos (show (p.2, p.1).1 < 2 ^ o from h4)]
        simpa [hihr] using by omega
      · rw [hilbertStep_one]
        simp only [hilbertInv]
        rw [if_neg (show ¬(p.1, p.2 + 2 ^ o).2 < 2 ^ o by simp; linarith),
          if_pos (show (p.1, p.2 + 2 ^ o).1 < 2 ^ o from h2)]
        simpa [hihr] using by omega
      · rw [hilbertStep_two]
        simp only [hilbertInv]
        rw [if_neg (show ¬(p.1 + 2 ^ o, p.2 + 2 ^ o).2 < 2 ^ o by simp; linarith),
          if_neg (show ¬(p.1 + 2 ^ o, p.2 + 2 ^ o).1 < 2 ^ o by simp; linarith)]
        simpa [hihr] using by omega
      · rw [hilbertStep_three]
        simp only [hilbertInv]
        rw [if_pos (show (2 * 2 ^ o - 1 - p.2, 2 ^ o - 1 - p.1).2 < 2 ^ o by
            simp; linarith),
          if_neg (show ¬(2 * 2 ^ o - 1 - p.2, 2 ^ o - 1 - p.1).1 < 2 ^ o by
            simp; linarith)]
        have e1 : (2 : ℤ) ^ o - 1 - (2 * 2 ^ o - 1 - p.2, 2 ^ o - 1 - p.1).2 = p.1 := by
          show (2 : ℤ) ^ o - 1 - (2 ^ o - 1 - p.1) = p.1
          ring
        have e2 : 2 * (2 : ℤ) ^ o - 1 - (2 * 2 ^ o - 1 - p.2, 2 ^ o - 1 - p.1).1 = p.2 := by
          show 2 * (2 : ℤ) ^ o - 1 - (2 * 2 ^ o - 1 - p.2) = p.2
          ring
        rw [e1, e2]
        simpa [hihr] using by omega

/-- Every grid cell is reached by an index below `4^o`. -/
theorem hilbert_hilbertInv (o : ℕ) :
    ∀ p ∈ gridSet o, hilbertInv o p < 4 ^ o ∧ hilbert o (hilbertInv o p) = p := by
  induction o with
  | zero =>
      rintro ⟨x, y⟩ hmem
      obtain ⟨h1, h2, h3, h4⟩ := (mem_gridSet 0 x y).mp hmem
      have hx : x = 0 := by omega
      have hy : y = 0 := by omega
      subst hx; subst hy
      exact ⟨by norm_num [hilbertInv], rfl⟩
  | succ o ih =>
      rintro ⟨x, y⟩ hmem
      obtain ⟨h1, h2, h3, h4⟩ := (mem_gridSet (o + 1) x y).mp hmem
      have hs : (0 : ℤ) < 2 ^ o := by positivity
      have h2o : ((2 : ℤ)) ^ (o + 1) = 2 * 2 ^ o := by ring
      rw [h2o] at h2 h4
      have hN : 0 < 4 ^ o := by positivity
      have h4o : (4 : ℕ) ^ (o + 1) = 4 ^ o * 4 := by rw [pow_succ]
      by_cases hy : y < 2 ^ o
      · by_cases hx : x < 2 ^ o
        · -- quadrant 0
          obtain ⟨hlt, heq⟩ := ih (y, x)
            ((mem_gridSet o _ _).mpr ⟨h3, hy, h1, hx⟩)
          have hout : hilbertInv (o + 1) (x, y) = hilbertInv o (y, x) := by
            simp only [hilbertInv]
            rw [if_pos hy, if_pos hx]
          refine ⟨by rw [hout]; omega, ?_⟩
          rw [hout, hilbert_quadrant, Nat.div_eq_of_lt hlt, Nat.mod_eq_of_lt hlt,
            heq, hilbertStep_zero]
        · -- quadrant 3
          push_neg at hx
          obtain ⟨hlt, heq⟩ := ih (2 ^ o - 1 - y, 2 * 2 ^ o - 1 - x)
            ((mem_gridSet o _ _).mpr
              ⟨by linarith, by linarith, by linarith, by linarith⟩)
          have hout : hilbertInv (o + 1) (x, y) =
              3 * 4 ^ o + hilbertInv o (2 ^ o - 1 - y, 2 * 2 ^ o - 1 - x) := by
            simp only [hilbertInv]
            rw [if_pos hy, if_neg (by push_neg; exact hx)]
          have hdiv : (3 * 4 ^ o + hilbertInv o (2 ^ o - 1 - y, 2 * 2 ^ o - 1 - x)) / 4 ^ o
              = 3 := by
            rw [mul_comm 3 (4 ^ o), Nat.mul_add_div hN, Nat.div_eq_of_lt hlt]
          have hmod : (3 * 4 ^ o + hilbertInv o (2 ^ o - 1 - y, 2 * 2 ^ o - 1 - x)) % 4 ^ o
              = hilbertInv o (2 ^ o - 1 - y, 2 * 2 ^ o - 1 - x) := by
            rw [mul_comm 3 (4 ^ o), Nat.mul_add_mod, Nat.mod_eq_of_lt hlt]
          refine ⟨by rw [hout]; omega, ?_⟩
          rw [hout, hilbert_quadrant, hdiv, hmod, heq, hilbertStep_three]
          refine Prod.ext ?_ ?_ <;> simp
      · push_neg at hy
        by_cases hx : x < 2 ^ o
        · -- quadrant 1
          obtain ⟨hlt, heq⟩ := ih (x, y - 2 ^ o)
            ((mem_gridSet o _ _).mpr ⟨h1, hx, by linarith, by linarith⟩)
          have hout : hilbertInv (o + 1) (x, y) =
              4 ^ o + hilbertInv o (x, y - 2 ^ o) := by
            simp only [hilbertInv]
            rw [if_neg (by push_neg; exact hy), if_pos hx]
          have hdiv : (4 ^ o + hilbertInv o (x, y - 2 ^ o)) / 4 ^ o = 1 := by
            rw [show (4 ^ o + hilbertInv o (x, y - 2 ^ o)) = 4 ^ o * 1 +
              hilbertInv o (x, y - 2 ^ o) by ring, Nat.mul_add_div hN,
              Nat.div_eq_of_lt hlt]
          have hmod : (4 ^ o + hilbertInv o (x, y - 2 ^ o)) % 4 ^ o =
              hilbertInv o (x, y - 2 ^ o) := by
            rw [show (4 ^ o + hilbertInv o (x, y - 2 ^ o)) = 4 ^ o * 1 +
              hilbertInv o (x, y - 2 ^ o) by ring, Nat.mul_add_mod,
              Nat.mod_eq_of_lt hlt]
          refine ⟨by rw [hout]; omega, ?_⟩
          rw [hout, hilbert_quadrant, hdiv, hmod, heq, hilbertStep_one]
          refine Prod.ext ?_ ?_ <;> simp
        · -- quadrant 2
          push_neg at hx
          obtain ⟨hlt, heq⟩ := ih (x - 2 ^ o, y - 2 ^ o)
            ((mem_gridSet o _ _).mpr
              ⟨by linarith, by linarith, by linarith, by linarith⟩)
          have hout : hilbertInv (o + 1) (x, y) =
              2 * 4 ^ o + hilbertInv o (x - 2 ^ o, y - 2 ^ o) := by
            simp only [hilbertInv]
            rw [if_neg (by push_neg; exact hy), if_neg (by push_neg; exact hx)]
          have hdiv : (2 * 4 ^ o + hilbertInv o (x - 2 ^ o, y - 2 ^ o)) / 4 ^ o = 2 := by
            rw [mul_comm 2 (4 ^ o), Nat.mul_add_div hN, Nat.div_eq_of_lt hlt]
          have hmod : (2 * 4 ^ o + hilbertInv o (x - 2 ^ o, y - 2 ^ o)) % 4 ^ o =
              hilbertInv o (x - 2 ^ o, y - 2 ^ o) := by
            rw [mul_comm 2 (4 ^ o), Nat.mul_add_mod, Nat.mod_eq_of_lt hlt]
          refine ⟨by rw [hout]; omega, ?_⟩
          rw [hout, hilbert_quadrant, hdiv, hmod, heq, hilbertStep_two]
          refine Prod.ext ?_ ?_ <;> simp

/-- C1: for every curve order `o` (so in particular for the UI-clamped
orders 3..8, with `n = 2^o`), `hilbert o` restricted to the indices
`d < 4^o` is a bijection onto the `n × n` integer grid: the `4^o` returned
cells are pairwise distinct and every cell of `[0,n) × [0,n)` is hit. -/
theorem hilbert_curve_bijection (o : ℕ) :
    Set.BijOn (hilbert o) (Set.Iio (4 ^ o)) (gridSet o) := by
  refine ⟨?_, ?_, ?_⟩
  · intro d hd
    exact hilbert_mem_grid o d hd
  · intro d1 hd1 d2 hd2 heq
    have e1 := hilbertInv_hilbert o d1 hd1
    have e2 := hilbertInv_hilbert o d2 hd2
    rw [← e1, ← e2, heq]
  · intro p hp
    obtain ⟨hlt, heq⟩ := hilbert_hilbertInv o p hp
    exact ⟨hilbertInv o p, hlt, heq⟩

/-- The curve starts in the lower-left corner. -/
theorem hilbert_zero_eq (o : ℕ) : hilbert o 0 = (0, 0) := by
  induction o with
  | zero => rfl
  | succ o ih =>
      rw [hilbert_succ, Nat.zero_div, ih, hilbertStep_zero]

/-- The curve ends in the lower-right corner. -/
theorem hilbert_last_eq (o : ℕ) : hilbert o (4 ^ o - 1) = (2 ^ o - 1, 0) := by
  induction o with
  | zero => norm_num [hilbert, hilbertGo]
  | succ o ih =>
      have hN : 0 < 4 ^ o := by positivity
      have h4o : (4 : ℕ) ^ (o + 1) = 4 ^ o * 4 := by rw [pow_succ]
      have hdiv : (4 ^ (o + 1) - 1) / 4 ^ o = 3 := by
        rw [h4o]
        apply Nat.div_eq_of_lt_le (by omega)
        omega
      have hmod : (4 ^ (o + 1) - 1) % 4 ^ o = 4 ^ o - 1 := by
        have hc := Nat.mod_add_div (4 ^ (o + 1) - 1) (4 ^ o)
        rw [hdiv] at hc
        omega
      rw [hilbert_quadrant, hdiv, hmod, ih, hilbertStep_three]
      refine Prod.ext ?_ ?_
      · show 2 * (2 : ℤ) ^ o - 1 - 0 = ((2 ^ (o + 1) - 1 : ℤ), (0 : ℤ)).1
        show 2 * (2 : ℤ) ^ o - 1 - 0 = 2 ^ (o + 1) - 1
        rw [pow_succ]
        ring
      · show (2 : ℤ) ^ o - 1 - (2 ^ o - 1) = ((2 ^ (o + 1) - 1 : ℤ), (0 : ℤ)).2
        show (2 : ℤ) ^ o - 1 - (2 ^ o - 1) = 0
        ring

/-- Each transform applied by the loop body is a Manhattan isometry. -/
theorem hilbertStep_manhattan (s : ℤ) (t : ℕ) (ht : t < 4) (p q : ℤ × ℤ) :
    manhattanDist (hilbertStep s t p) (hilbertStep s t q) = manhattanDist p q := by
  interval_cases t
  · rw [hilbertStep_zero, hilbertStep_zero]
    show |p.2 - q.2| + |p.1 - q.1| = |p.1 - q.1| + |p.2 - q.2|
    ring
  · rw [hilbertStep_one, hilbertStep_one]
    show |p.1 - q.1| + |p.2 + s - (q.2 + s)| = |p.1 - q.1| + |p.2 - q.2|
    rw [show p.2 + s - (q.2 + s) = p.2 - q.2 by ring]
  · rw [hilbertStep_two, hilbertStep_two]
    show |p.1 + s - (q.1 + s)| + |p.2 + s - (q.2 + s)| = |p.1 - q.1| + |p.2 - q.2|
    rw [show p.1 + s - (q.1 + s) = p.1 - q.1 by ring,
      show p.2 + s - (q.2 + s) = p.2 - q.2 by ring]
  · rw [hilbertStep_three, hilbertStep_three]
    show |2 * s - 1 - p.2 - (2 * s - 1 - q.2)| + |s - 1 - p.1 - (s - 1 - q.1)| =
      |p.1 - q.1| + |p.2 - q.2|
    rw [show 2 * s - 1 - p.2 - (2 * s - 1 - q.2) = q.2 - p.2 by ring,
      show s - 1 - p.1 - (s - 1 - q.1) = q.1 - p.1 by ring,
      abs_sub_comm q.2 p.2, abs_sub_comm q.1 p.1]
    ring

/-- Consecutive indices are Manhattan neighbours. -/
theorem hilbert_adjacent_manhattan (o : ℕ) :
    ∀ d : ℕ, d + 1 < 4 ^ o →
      manhattanDist (hilbert o d) (hilbert o (d + 1)) = 1 := by
  induction o with
  | zero =>
      intro d hd
      exact absurd hd (by omega)
  | succ o ih =>
      intro d hd
      have hN : 0 < 4 ^ o := by positivity
      have h4o : (4 : ℕ) ^ (o + 1) = 4 ^ o * 4 := by rw [pow_succ]
      have hq4 : d / 4 ^ o < 4 := quotient_lt_four o d (by omega)
      have hdqr : 4 ^ o * (d / 4 ^ o) + d % 4 ^ o = d := Nat.div_add_mod d _
      have hrN : d % 4 ^ o < 4 ^ o := Nat.mod_lt _ hN
      have hs : (0 : ℤ) < 2 ^ o := by positivity
      by_cases hlast : d % 4 ^ o = 4 ^ o - 1
      · -- crossing a quadrant boundary
        have hq3 : d / 4 ^ o < 3 := by
          rcases Nat.lt_or_ge (d / 4 ^ o) 3 with h | h
          · exact h
          · exfalso
            have : d / 4 ^ o = 3 := by omega
            rw [this, hlast] at hdqr
            omega
        have hd1 : d + 1 = 4 ^ o * (d / 4 ^ o + 1) := by
          rw [Nat.mul_add, Nat.mul_one]
          omega
        have hdiv1 : (d + 1) / 4 ^ o = d / 4 ^ o + 1 := by
          rw [hd1, Nat.mul_div_cancel_left _ hN]
        have hmod1 : (d + 1) % 4 ^ o = 0 := by
          rw [hd1, Nat.mul_mod_right]
        rw [hilbert_quadrant o d, hilbert_quadrant o (d + 1), hdiv1, hmod1, hlast,
          hilbert_zero_eq, hilbert_last_eq]
        set q := d / 4 ^ o with hqdef
        interval_cases q
        · rw [hilbertStep_zero, hilbertStep_one]
          show |(0 : ℤ) - 0| + |2 ^ o - 1 - (0 + 2 ^ o)| = 1
          rw [show (2 : ℤ) ^ o - 1 - (0 + 2 ^ o) = -1 by ring]
          norm_num
        · rw [hilbertStep_one, hilbertStep_two]
          show |(2 : ℤ) ^ o - 1 - (0 + 2 ^ o)| + |0 + 2 ^ o - (0 + 2 ^ o)| = 1
          rw [show (2 : ℤ) ^ o - 1 - (0 + 2 ^ o) = -1 by ring,
            show (0 : ℤ) + 2 ^ o - (0 + 2 ^ o) = 0 by ring]
          norm_num
        · rw [hilbertStep_two, hilbertStep_three]
          show |(2 : ℤ) ^ o - 1 + 2 ^ o - (2 * 2 ^ o - 1 - 0)| +
            |0 + 2 ^ o - (2 ^ o - 1 - 0)| = 1
          rw [show (2 : ℤ) ^ o - 1 + 2 ^ o - (2 * 2 ^ o - 1 - 0) = 0 by ring,
            show (0 : ℤ) + 2 ^ o - (2 ^ o - 1 - 0) = 1 by ring]
          norm_num
      · -- inside one quadrant
        have hmodlt : d % 4 ^ o + 1 < 4 ^ o := by omega
        have hsplit : d + 1 = (d % 4 ^ o + 1) + 4 ^ o * (d / 4 ^ o) := by omega
        have hdiv1 : (d + 1) / 4 ^ o = d / 4 ^ o := by
          rw [hsplit, Nat.add_mul_div_left _ _ hN, Nat.div_eq_of_lt hmodlt, zero_add]
        have hmod1 : (d + 1) % 4 ^ o = d % 4 ^ o + 1 := by
          rw [hsplit, Nat.add_mul_mod_self_left, Nat.mod_eq_of_lt hmodlt]
        rw [hilbert_quadrant o d, hilbert_quadrant o (d + 1), hdiv1, hmod1,
          hilbertStep_manhattan _ _ hq4]
        exact ih (d % 4 ^ o) hmodlt

/-- C2: for every curve order `o` and consecutive indices `d`, `d+1` in
`[0, 4^o)`, the cells `hilbert o d` and `hilbert o (d+1)` are at Chebyshev
distance exactly 1. -/
theorem hilbert_consecutive_chebyshev (o d : ℕ) (h : d + 1 < 4 ^ o) :
    chebyshevDist (hilbert o d) (hilbert o (d + 1)) = 1 := by
  have hm := hilbert_adjacent_manhattan o d h
  unfold manhattanDist at hm
  unfold chebyshevDist
  have h1 : 0 ≤ |(hilbert o d).1 - (hilbert o (d + 1)).1| := abs_nonneg _
  have h2 : 0 ≤ |(hilbert o d).2 - (hilbert o (d + 1)).2| := abs_nonneg _
  have hcases : (|(hilbert o d).1 - (hilbert o (d + 1)).1| = 0 ∧
      |(hilbert o d).2 - (hilbert o (d + 1)).2| = 1) ∨
      (|(hilbert o d).1 - (hilbert o (d + 1)).1| = 1 ∧
      |(hilbert o d).2 - (hilbert o (d + 1)).2| = 0) := by omega
  rcases hcases with ⟨ha, hb⟩ | ⟨ha, hb⟩ <;> rw [ha, hb] <;> norm_num

/-- Concrete instance of C2 at order 1, index 0. -/
theorem hilbert_consecutive_chebyshev_witness :
    (0 : ℕ) + 1 < 4 ^ 1 ∧ chebyshevDist (hilbert 1 0) (hilbert 1 1) = 1 :=
  ⟨by norm_num, hilbert_consecutive_chebyshev 1 0 (by norm_num)⟩

open scoped Classical

/-- One emitted G-code instruction.  Constructors carry the real-valued
arguments of the corresponding emitted text line (`G0 X.. Y.. F..`,
`G1 X.. Y.. E.. F..`, `G0/G1 Z.. F..`, bare `G1 E.. F..`, comments and
other raw commands); the `toFixed` decimal formatting of the text output
is outside the model. -/
inductive GInstr where
  | g0 (x y f : ℝ)
  | g1 (x y e f : ℝ)
  | g0z (z f : ℝ)
  | g1z (z f : ℝ)
  | g1e (e f : ℝ)
  | comment (s : String)
  | raw (s : String)

/-- The mutable state threaded through the emission helpers of
`processImageCore`: the previous head position `prevX`/`prevY`, the
running extrusion total `totalE`, and the instructions pushed so far
(most recent first; the source pushes to the end of an array). -/
structure MoveState where
  prevX : ℝ
  prevY : ℝ
  totalE : ℝ
  gcode : List GInstr

/-- Model of `Math.hypot(x - prevX, y - prevY)`: Euclidean distance from the
previous position to `(x, y)`. -/
noncomputable def segDist (s : MoveState) (x y : ℝ) : ℝ :=
  Real.sqrt ((x - s.prevX) ^ 2 + (y - s.prevY) ^ 2)

/-- Model of `writeMove(x, y, targetW, targetF, isTravel)` from script.js lines
1355-1384 (the canvas preview drawing is outside the model): travel moves
and sub-threshold segments emit `G0 .. F6000`; printing segments emit
`G1 .. E.. F..` with `e = dist*targetW*layerHeight/filArea` and
accumulate `e` into `totalE`. -/
noncomputable def writeMove (layerHeight filArea : ℝ) (s : MoveState)
    (x y targetW targetF : ℝ) (isTravel : Bool) : MoveState :=
  let dist := segDist s x y
  if isTravel = true ∨ dist < 0.01 then
    { prevX := x, prevY := y, totalE := s.totalE,
      gcode := GInstr.g0 x y 6000 :: s.gcode }
  else
    let vol := dist * targetW * layerHeight
    let e := vol / filArea
    { prevX := x, prevY := y, totalE := s.totalE + e,
      gcode := GInstr.g1 x y e targetF :: s.gcode }

/-- C3: a `writeMove` call with `isTravel` set or Euclidean segment length
below 0.01 mm emits a non-extruding `G0` move at the fixed rapid rate
F6000 and leaves `totalE` unchanged; otherwise it emits a printing `G1`
move at feed `targetF` whose extrusion equals
`dist * targetW * layerHeight / (pi * (filamentDia/2)^2)` (exactly, in the
real-valued model), added to the running total `totalE`. -/
theorem writeMove_spec (layerHeight filamentDia : ℝ) (s : MoveState)
    (x y targetW targetF : ℝ) (isTravel : Bool) :
    (isTravel = true ∨ segDist s x y < 0.01 →
      writeMove layerHeight (Real.pi * (filamentDia / 2) ^ 2) s x y targetW targetF
          isTravel =
        { prevX := x, prevY := y, totalE := s.totalE,
          gcode := GInstr.g0 x y 6000 :: s.gcode }) ∧
    (¬(isTravel = true ∨ segDist s x y < 0.01) →
      writeMove layerHeight (Real.pi * (filamentDia / 2) ^ 2) s x y targetW targetF
          isTravel =
        { prevX := x, prevY := y,
          totalE := s.totalE +
            segDist s x y * targetW * layerHeight / (Real.pi * (filamentDia / 2) ^ 2),
          gcode := GInstr.g1 x y
            (segDist s x y * targetW * layerHeight / (Real.pi * (filamentDia / 2) ^ 2))
            targetF :: s.gcode }) := by
  constructor
  · intro h
    simp only [writeMove]
    rw [if_pos h]
  · intro h
    simp only [writeMove]
    rw [if_neg h]

/-- Concrete move state used by the `writeMove` witness. -/
noncomputable def wmOrigin : MoveState :=
  { prevX := 0, prevY := 0, totalE := 0, gcode := [] }

/-- Concrete instance of C3: printing branch on the segment (0,0)-(3,4)
of length 5. -/
theorem writeMove_spec_witness :
    ¬((false : Bool) = true ∨ segDist wmOrigin 3 4 < 0.01) ∧
    writeMove 1 (Real.pi * ((2 : ℝ) / 2) ^ 2) wmOrigin 3 4 1 1200 false =
      { prevX := 3, prevY := 4,
        totalE := wmOrigin.totalE +
          segDist wmOrigin 3 4 * 1 * 1 / (Real.pi * ((2 : ℝ) / 2) ^ 2),
        gcode := GInstr.g1 3 4
          (segDist wmOrigin 3 4 * 1 * 1 / (Real.pi * ((2 : ℝ) / 2) ^ 2))
          1200 :: wmOrigin.gcode } := by
  have hdist : segDist wmOrigin 3 4 = 5 := by
    unfold segDist wmOrigin
    rw [show ((3 : ℝ) - 0) ^ 2 + ((4 : ℝ) - 0) ^ 2 = 5 ^ 2 by norm_num]
    exact Real.sqrt_sq (by norm_num)
  have hno : ¬((false : Bool) = true ∨ segDist wmOrigin 3 4 < 0.01) := by
    rw [hdist]
    rintro (h | h)
    · exact Bool.false_ne_true h
    · norm_num at h
  exact ⟨hno, (writeMove_spec 1 2 wmOrigin 3 4 1 1200 false).2 hno⟩

/-- Model of `pixelBrightness(px, py)` from `getBrightnessAtUV` (script.js lines
387-390): average of the three RGB channels at the flat RGBA index
`(py * anaW + px) * 4`.  The byte array is modelled as a function from
index to value. -/
noncomputable def pixelBrightness (pixels : ℤ → ℝ) (anaW : ℕ) (px py : ℤ) : ℝ :=
  let idx := (py * (anaW : ℤ) + px) * 4
  (pixels idx + pixels (idx + 1) + pixels (idx + 2)) / 3.0

/-- Model of `getBrightnessAtUV(u_print, v_print_yup, pixels, anaW, anaH, gammaVal)`
from script.js lines 368-403, with the zoom/pan state passed explicitly:
view transform, clamp to [0,1], bilinear interpolation of the averaged
RGB channel, gamma correction, and inversion (`darkness`). -/
noncomputable def getBrightnessAtUV (imageZoom imageOffsetX imageOffsetY : ℝ)
    (pixels : ℤ → ℝ) (anaW anaH : ℕ) (gammaVal : ℝ)
    (u_print v_print_yup : ℝ) : ℝ :=
  let v_print_ydown := 1.0 - v_print_yup
  let u_source0 := u_print / imageZoom + imageOffsetX
  let v_source0 := v_print_ydown / imageZoom + imageOffsetY
  let u_source := max 0 (min 1 u_source0)
  let v_source := max 0 (min 1 v_source0)
  let xf := u_source * ((anaW : ℝ) - 1)
  let yf := v_source * ((anaH : ℝ) - 1)
  let x0 : ℤ := ⌊xf⌋
  let y0 : ℤ := ⌊yf⌋
  let x1 : ℤ := min (x0 + 1) ((anaW : ℤ) - 1)
  let y1 : ℤ := min (y0 + 1) ((anaH : ℤ) - 1)
  let tx := xf - (x0 : ℝ)
  let ty := yf - (y0 : ℝ)
  let c00 := pixelBrightness pixels anaW x0 y0
  let c10 := pixelBrightness pixels anaW x1 y0
  let c01 := pixelBrightness pixels anaW x0 y1
  let c11 := pixelBrightness pixels anaW x1 y1
  let avgColor := c00 * (1 - tx) * (1 - ty) + c10 * tx * (1 - ty) +
    c01 * (1 - tx) * ty + c11 * tx * ty
  let val := (avgColor / 255.0) ^ (1.0 / gammaVal)
  1.0 - val

/-- The five `pathType` values of the UI selector. -/
inductive PathKind where
  | spiral
  | squareSpiral
  | hilbertCurve
  | zigzag
  | diagonal
deriving DecidableEq

/-- The parameters of `processImageCore` captured by the closures
`doSmartMove` / `isInsideBaseClip` / `writeMove` (script.js lines
1069-1161), with the view state (`appState.imageZoom` etc.) and the pixel
buffer included. -/
structure ArtCtx where
  pathType : PathKind
  addCircularBase : Bool
  offsetX : ℝ
  offsetY : ℝ
  printWidth : ℝ
  printHeight : ℝ
  printDim : ℝ
  baseRadius : ℝ
  centerX : ℝ
  centerY : ℝ
  centerOffsetX : ℝ
  centerOffsetY : ℝ
  innerRadius : ℝ
  mirrorimage : Bool
  textMode : Bool
  textThreshold : ℝ
  minW : ℝ
  maxW : ℝ
  minSpeed : ℝ
  maxSpeed : ℝ
  gammaVal : ℝ
  squiggleAmp : ℝ
  squiggleFreq : ℝ
  layerHeight : ℝ
  filArea : ℝ
  imageZoom : ℝ
  imageOffsetX : ℝ
  imageOffsetY : ℝ
  pixels : ℤ → ℝ
  anaW : ℕ
  anaH : ℕ

/-- Model of `isInsideBaseClip(x, y)` from script.js lines 1386-1409: the closed
inner clip region of the configured base, dispatched on the pattern shape
(circle for `spiral`, square for `squareSpiral`/`hilbert`, rectangle
otherwise); all comparisons are inclusive. -/
def isInsideBaseClip (c : ArtCtx) (x y : ℝ) : Prop :=
  match c.pathType with
  | PathKind.spiral =>
      Real.sqrt ((x - c.centerX) ^ 2 + (y - c.centerY) ^ 2) ≤
        c.baseRadius - c.innerRadius
  | PathKind.squareSpiral | PathKind.hilbertCurve =>
      c.centerOffsetX + c.innerRadius ≤ x ∧
      x ≤ c.centerOffsetX + c.printDim - c.innerRadius ∧
      c.centerOffsetY + c.innerRadius ≤ y ∧
      y ≤ c.centerOffsetY + c.printDim - c.innerRadius
  | _ =>
      c.offsetX + c.innerRadius ≤ x ∧
      x ≤ c.offsetX + c.printWidth - c.innerRadius ∧
      c.offsetY + c.innerRadius ≤ y ∧
      y ≤ c.offsetY + c.printHeight - c.innerRadius

/-- The single darkness sample taken by `doSmartMove` at its target point
`(x, y)` (script.js lines 1417-1427): print-space UV coordinates, optional
horizontal mirroring, then `getBrightnessAtUV`. -/
noncomputable def sampleDarkness (c : ArtCtx) (x y : ℝ) : ℝ :=
  let u := (x - c.offsetX) / c.printWidth
  let v_yup := (y - c.offsetY) / c.printHeight
  let u_sample := if c.mirrorimage = true then 1.0 - u else u
  getBrightnessAtUV c.imageZoom c.imageOffsetX c.imageOffsetY c.pixels c.anaW c.anaH
    c.gammaVal u_sample v_yup

/-- The squiggle branch of `doSmartMove` (script.js lines 1446-1476):
subdivide the segment from the previous position to `(x, y)` into
`max 2 ⌊dist/0.1⌋` sub-segments and emit each sub-point offset
perpendicular to the segment by `sin(phase) * amplitude`, all at the one
width/feed computed from the single darkness sample.  The local
quantities of that branch (`startX .. freq`, script.js lines 1447-1460)
are gathered in `SquigData`; `squigglePoint` computes the sub-point of
loop iteration `i+1` (the source loop runs `i = 1 .. numSegments`). -/
structure SquigData where
  startX : ℝ
  startY : ℝ
  distTotal : ℝ
  numSegments : ℕ
  dx : ℝ
  dy : ℝ
  dx_perp : ℝ
  dy_perp : ℝ
  amplitude : ℝ
  freq : ℝ

/-- The local quantities of the squiggle branch (script.js lines
1447-1460). -/
noncomputable def squiggleData (c : ArtCtx) (s : MoveState)
    (x y darkness : ℝ) : SquigData :=
  let startX := s.prevX
  let startY := s.prevY
  let distTotal := Real.sqrt ((x - startX) ^ 2 + (y - startY) ^ 2)
  let numSegments : ℕ := max 2 (⌊distTotal / 0.1⌋).toNat
  let dx := (x - startX) / (numSegments : ℝ)
  let dy := (y - startY) / (numSegments : ℝ)
  let norm := Real.sqrt (dx ^ 2 + dy ^ 2)
  { startX := startX, startY := startY, distTotal := distTotal,
    numSegments := numSegments, dx := dx, dy := dy,
    dx_perp := -dy / norm, dy_perp := dx / norm,
    amplitude := c.squiggleAmp * darkness,
    freq := c.squiggleFreq * (2 * Real.pi) }

/-- The sub-point emitted by loop iteration `i+1` of the squiggle branch
(script.js lines 1462-1472). -/
noncomputable def squigglePoint (d : SquigData) (i : ℕ) : ℝ × ℝ :=
  let iR : ℝ := (i : ℝ) + 1
  let currentDist := iR / (d.numSegments : ℝ) * d.distTotal
  let px_straight := d.startX + d.dx * iR
  let py_straight := d.startY + d.dy * iR
  let phase := currentDist * d.freq
  let offsetMag := Real.sin phase * d.amplitude
  (px_straight + d.dx_perp * offsetMag, py_straight + d.dy_perp * offsetMag)

/-- The emission loop of the squiggle branch (script.js lines 1462-1475):
every sub-point is written with the same `targetW`/`targetF`. -/
noncomputable def squiggleMoves (c : ArtCtx) (s : MoveState)
    (x y targetW targetF darkness : ℝ) : MoveState :=
  (List.range (squiggleData c s x y darkness).numSegments).foldl
    (fun st i =>
      writeMove c.layerHeight c.filArea st
        (squigglePoint (squiggleData c s x y darkness) i).1
        (squigglePoint (squiggleData c s x y darkness) i).2
        targetW targetF false) s

/-- Model of `doSmartMove(x, y, isConnect)` from script.js lines 1411-1477: clip
test against the base, one darkness sample at the target point, text-mode
hard threshold, else width/speed mapping and either a single `writeMove`
or the squiggle subdivision (`useSquiggle` is `squiggleAmp > 0.01`). -/
noncomputable def doSmartMove (c : ArtCtx) (s : MoveState) (x y : ℝ)
    (isConnect : Bool) : MoveState :=
  if c.addCircularBase = true ∧ ¬isInsideBaseClip c x y then
    writeMove c.layerHeight c.filArea s x y 0 0 true
  else
    let darkness := sampleDarkness c x y
    if c.textMode = true ∧ isConnect = false then
      if darkness < c.textThreshold then
        writeMove c.layerHeight c.filArea s x y 0 0 true
      else
        writeMove c.layerHeight c.filArea s x y c.maxW c.minSpeed false
    else
      let targetW := c.minW + darkness * (c.maxW - c.minW)
      let targetF := c.maxSpeed - darkness * (c.maxSpeed - c.minSpeed)
      if isConnect = true ∨ ¬(0.01 < c.squiggleAmp) ∨ darkness < 0.1 then
        writeMove c.layerHeight c.filArea s x y targetW targetF isConnect
      else
        squiggleMoves c s x y targetW targetF darkness

theorem writeMove_eq_travel (lh fa : ℝ) (s : MoveState) (x y w f : ℝ) (t : Bool)
    (h : t = true ∨ segDist s x y < 0.01) :
    writeMove lh fa s x y w f t =
      { prevX := x, prevY := y, totalE := s.totalE,
        gcode := GInstr.g0 x y 6000 :: s.gcode } := by
  simp only [writeMove]
  rw [if_pos h]

theorem writeMove_eq_print (lh fa : ℝ) (s : MoveState) (x y w f : ℝ) (t : Bool)
    (h : ¬(t = true ∨ segDist s x y < 0.01)) :
    writeMove lh fa s x y w f t =
      { prevX := x, prevY := y,
        totalE := s.totalE + segDist s x y * w * lh / fa,
        gcode := GInstr.g1 x y (segDist s x y * w * lh / fa) f :: s.gcode } := by
  simp only [writeMove]
  rw [if_neg h]

/-- A call of `writeMove` pushes exactly one instruction, and any `G1` it pushes
targets `(x, y)` with the width folded into the stated extrusion. -/
theorem writeMove_g1_target (lh fa : ℝ) (s : MoveState) (x y w f : ℝ) (t : Bool) :
    ∃ i : GInstr, (writeMove lh fa s x y w f t).gcode = i :: s.gcode ∧
      ∀ px py e ff, i = GInstr.g1 px py e ff → px = x ∧ py = y := by
  by_cases h : t = true ∨ segDist s x y < 0.01
  · refine ⟨GInstr.g0 x y 6000, ?_, ?_⟩
    · rw [writeMove_eq_travel lh fa s x y w f t h]
    · intro px py e ff hcon
      exact GInstr.noConfusion hcon
  · refine ⟨GInstr.g1 x y (segDist s x y * w * lh / fa) f, ?_, ?_⟩
    · rw [writeMove_eq_print lh fa s x y w f t h]
    · intro px py e ff hcon
      injection hcon with h1 h2 h3 h4
      exact ⟨h1.symm, h2.symm⟩

/-- Every instruction pushed by `writeMove` is a `G0`, or a `G1` at feed
`f` whose extrusion is `d * w * lh / fa` for some nonnegative length `d`. -/
theorem writeMove_new_instr (lh fa : ℝ) (s : MoveState) (x y w f : ℝ) (t : Bool) :
    ∀ g ∈ (writeMove lh fa s x y w f t).gcode, g ∈ s.gcode ∨
      (∃ px py ff, g = GInstr.g0 px py ff) ∨
      (∃ px py dval, 0 ≤ dval ∧ g = GInstr.g1 px py (dval * w * lh / fa) f) := by
  intro g hg
  by_cases h : t = true ∨ segDist s x y < 0.01
  · rw [writeMove_eq_travel lh fa s x y w f t h] at hg
    rcases List.mem_cons.mp hg with hh | hh
    · exact Or.inr (Or.inl ⟨x, y, 6000, hh⟩)
    · exact Or.inl hh
  · rw [writeMove_eq_print lh fa s x y w f t h] at hg
    rcases List.mem_cons.mp hg with hh | hh
    · exact Or.inr (Or.inr ⟨x, y, segDist s x y, Real.sqrt_nonneg _, hh⟩)
    · exact Or.inl hh

/-- Folding an emission body preserves a per-instruction invariant. -/
theorem foldl_gcode_invariant {α : Type} (body : MoveState → α → MoveState)
    (P : GInstr → Prop)
    (hbody : ∀ st a, ∀ g ∈ (body st a).gcode, g ∈ st.gcode ∨ P g)
    (l : List α) (st : MoveState) :
    ∀ g ∈ (l.foldl body st).gcode, g ∈ st.gcode ∨ P g := by
  induction l generalizing st with
  | nil => intro g hg; exact Or.inl hg
  | cons a l ih =>
      intro g hg
      rcases ih (body st a) g hg with h | h
      · exact hbody st a g h
      · exact Or.inr h

/-- Folding an emission body keeps previously emitted instructions. -/
theorem foldl_gcode_mem {α : Type} (body : MoveState → α → MoveState)
    (hbody : ∀ st a, ∀ g ∈ st.gcode, g ∈ (body st a).gcode)
    (l : List α) (st : MoveState) (g : GInstr) (hg : g ∈ st.gcode) :
    g ∈ (l.foldl body st).gcode := by
  induction l generalizing st with
  | nil => exact hg
  | cons a l ih => exact ih (body st a) (hbody st a g hg)

theorem mem_writeMove_gcode (lh fa : ℝ) (s : MoveState) (x y w f : ℝ) (t : Bool)
    (g : GInstr) (hg : g ∈ s.gcode) : g ∈ (writeMove lh fa s x y w f t).gcode := by
  by_cases h : t = true ∨ segDist s x y < 0.01
  · rw [writeMove_eq_travel lh fa s x y w f t h]
    exact List.mem_cons_of_mem _ hg
  · rw [writeMove_eq_print lh fa s x y w f t h]
    exact List.mem_cons_of_mem _ hg

/-- An instruction emitted on the first iteration of an emission loop over
`List.range n` survives to the end of the fold. -/
theorem foldl_range_head_mem (body : MoveState → ℕ → MoveState)
    (hbody : ∀ st a, ∀ g ∈ st.gcode, g ∈ (body st a).gcode)
    (n : ℕ) (hn : 0 < n) (st : MoveState) (g : GInstr)
    (hg : g ∈ (body st 0).gcode) :
    g ∈ ((List.range n).foldl body st).gcode := by
  obtain ⟨m, rfl⟩ : ∃ m, n = m + 1 := ⟨n - 1, by omega⟩
  rw [List.range_succ_eq_map, List.foldl_cons]
  exact foldl_gcode_mem body hbody _ _ g hg

theorem doSmartMove_eq_clip_travel (c : ArtCtx) (s : MoveState) (x y : ℝ)
    (isConnect : Bool) (h : c.addCircularBase = true ∧ ¬isInsideBaseClip c x y) :
    doSmartMove c s x y isConnect = writeMove c.layerHeight c.filArea s x y 0 0 true := by
  simp only [doSmartMove]
  rw [if_pos h]

theorem doSmartMove_eq_text_travel (c : ArtCtx) (s : MoveState) (x y : ℝ)
    (isConnect : Bool) (h1 : ¬(c.addCircularBase = true ∧ ¬isInsideBaseClip c x y))
    (h2 : c.textMode = true ∧ isConnect = false)
    (h3 : sampleDarkness c x y < c.textThreshold) :
    doSmartMove c s x y isConnect = writeMove c.layerHeight c.filArea s x y 0 0 true := by
  simp only [doSmartMove]
  rw [if_neg h1, if_pos h2, if_pos h3]

theorem doSmartMove_eq_text_print (c : ArtCtx) (s : MoveState) (x y : ℝ)
    (isConnect : Bool) (h1 : ¬(c.addCircularBase = true ∧ ¬isInsideBaseClip c x y))
    (h2 : c.textMode = true ∧ isConnect = false)
    (h3 : ¬sampleDarkness c x y < c.textThreshold) :
    doSmartMove c s x y isConnect =
      writeMove c.layerHeight c.filArea s x y c.maxW c.minSpeed false := by
  simp only [doSmartMove]
  rw [if_neg h1, if_pos h2, if_neg h3]

theorem doSmartMove_eq_plain (c : ArtCtx) (s : MoveState) (x y : ℝ)
    (isConnect : Bool) (h1 : ¬(c.addCircularBase = true ∧ ¬isInsideBaseClip c x y))
    (h2 : ¬(c.textMode = true ∧ isConnect = false))
    (h3 : isConnect = true ∨ ¬(0.01 < c.squiggleAmp) ∨ sampleDarkness c x y < 0.1) :
    doSmartMove c s x y isConnect =
      writeMove c.layerHeight c.filArea s x y
        (c.minW + sampleDarkness c x y * (c.maxW - c.minW))
        (c.maxSpeed - sampleDarkness c x y * (c.maxSpeed - c.minSpeed)) isConnect := by
  simp only [doSmartMove]
  rw [if_neg h1, if_neg h2, if_pos h3]

theorem doSmartMove_eq_squiggle (c : ArtCtx) (s : MoveState) (x y : ℝ)
    (isConnect : Bool) (h1 : ¬(c.addCircularBase = true ∧ ¬isInsideBaseClip c x y))
    (h2 : ¬(c.textMode = true ∧ isConnect = false))
    (h3 : ¬(isConnect = true ∨ ¬(0.01 < c.squiggleAmp) ∨ sampleDarkness c x y < 0.1)) :
    doSmartMove c s x y isConnect =
      squiggleMoves c s x y
        (c.minW + sampleDarkness c x y * (c.maxW - c.minW))
        (c.maxSpeed - sampleDarkness c x y * (c.maxSpeed - c.minSpeed))
        (sampleDarkness c x y) := by
  simp only [doSmartMove]
  rw [if_neg h1, if_neg h2, if_neg h3]

/-- A `doSmartMove` call pushed exactly one instruction and, if that
instruction is a printing move, it ends at the clip-tested target point
`(x, y)` inside the closed inner clip region. -/
def EmitsClipped (c : ArtCtx) (s : MoveState) (x y : ℝ) (isConnect : Bool) : Prop :=
  ∃ i : GInstr, (doSmartMove c s x y isConnect).gcode = i :: s.gcode ∧
    ∀ px py e f, i = GInstr.g1 px py e f → px = x ∧ py = y ∧ isInsideBaseClip c x y

/-- C4 (amended): when a base is configured, every `doSmartMove` call that
does not enter the squiggle branch pushes exactly one instruction, and if
it is a printing move it ends at the clip-tested target, inside the closed
inner clip region.  (The original claim fails for squiggle sub-segments:
see the counterexample.) -/
theorem doSmartMove_clip_nonsquiggle (c : ArtCtx) (s : MoveState) (x y : ℝ)
    (isConnect : Bool) (hbase : c.addCircularBase = true)
    (hns : isConnect = true ∨ ¬(0.01 < c.squiggleAmp) ∨
      sampleDarkness c x y < 0.1 ∨ c.textMode = true) :
    EmitsClipped c s x y isConnect := by
  by_cases hin : isInsideBaseClip c x y
  · have h1 : ¬(c.addCircularBase = true ∧ ¬isInsideBaseClip c x y) := by
      rintro ⟨-, hno⟩
      exact hno hin
    by_cases htext : c.textMode = true ∧ isConnect = false
    · by_cases hdark : sampleDarkness c x y < c.textThreshold
      · obtain ⟨i, hi, hti⟩ :=
          writeMove_g1_target c.layerHeight c.filArea s x y 0 0 true
        refine ⟨i, ?_, ?_⟩
        · rw [doSmartMove_eq_text_travel c s x y isConnect h1 htext hdark]
          exact hi
        · intro px py e f hc
          obtain ⟨ha, hb⟩ := hti px py e f hc
          exact ⟨ha, hb, hin⟩
      · obtain ⟨i, hi, hti⟩ :=
          writeMove_g1_target c.layerHeight c.filArea s x y c.maxW c.minSpeed false
        refine ⟨i, ?_, ?_⟩
        · rw [doSmartMove_eq_text_print c s x y isConnect h1 htext hdark]
          exact hi
        · intro px py e f hc
          obtain ⟨ha, hb⟩ := hti px py e f hc
          exact ⟨ha, hb, hin⟩
    · have h3 : isConnect = true ∨ ¬(0.01 < c.squiggleAmp) ∨
          sampleDarkness c x y < 0.1 := by
        rcases hns with h | h | h | h
        · exact Or.inl h
        · exact Or.inr (Or.inl h)
        · exact Or.inr (Or.inr h)
        · cases isConnect with
          | false => exact absurd ⟨h, rfl⟩ htext
          | true => exact Or.inl rfl
      obtain ⟨i, hi, hti⟩ := writeMove_g1_target c.layerHeight c.filArea s x y
        (c.minW + sampleDarkness c x y * (c.maxW - c.minW))
        (c.maxSpeed - sampleDarkness c x y * (c.maxSpeed - c.minSpeed)) isConnect
      refine ⟨i, ?_, ?_⟩
      · rw [doSmartMove_eq_plain c s x y isConnect h1 htext h3]
        exact hi
      · intro px py e f hc
        obtain ⟨ha, hb⟩ := hti px py e f hc
        exact ⟨ha, hb, hin⟩
  · refine ⟨GInstr.g0 x y 6000, ?_, ?_⟩
    · rw [doSmartMove_eq_clip_travel c s x y isConnect ⟨hbase, hin⟩,
        writeMove_eq_travel _ _ _ _ _ _ _ _ (Or.inl rfl)]
    · intro px py e f hc
      exact GInstr.noConfusion hc

/-- On an all-black image (every byte 0) with gamma 1, every darkness
sample is 1. -/
theorem darkness_black (u v : ℝ) :
    getBrightnessAtUV 1 0 0 (fun _ => 0) 2 2 1 u v = 1 := by
  simp only [getBrightnessAtUV, pixelBrightness]
  norm_num

/-- Parameter set of the squiggle clip-escape counterexample: square-
spiral pattern with a base, inner margin 2 on the square `[0,100]^2`,
all-black image, gamma 1, squiggle amplitude 1, frequency 1. -/
noncomputable def ctxEsc : ArtCtx where
  pathType := PathKind.squareSpiral
  addCircularBase := true
  offsetX := 0
  offsetY := 0
  printWidth := 100
  printHeight := 100
  printDim := 100
  baseRadius := 50
  centerX := 50
  centerY := 50
  centerOffsetX := 0
  centerOffsetY := 0
  innerRadius := 2
  mirrorimage := false
  textMode := false
  textThreshold := 0.4
  minW := 0.2
  maxW := 0.8
  minSpeed := 600
  maxSpeed := 6000
  gammaVal := 1
  squiggleAmp := 1
  squiggleFreq := 1
  layerHeight := 0.2
  filArea := 1
  imageZoom := 1
  imageOffsetX := 0
  imageOffsetY := 0
  pixels := fun _ => 0
  anaW := 2
  anaH := 2

/-- Move state of the counterexample: head resting on the inner clip
boundary at (2, 50). -/
noncomputable def sEsc : MoveState :=
  { prevX := 2, prevY := 50, totalE := 0, gcode := [] }

/-- Concrete instance of the amended C4 (connector move, base configured). -/
theorem doSmartMove_clip_nonsquiggle_witness :
    ctxEsc.addCircularBase = true ∧ EmitsClipped ctxEsc sEsc 2 54 true :=
  ⟨by rfl, doSmartMove_clip_nonsquiggle ctxEsc sEsc 2 54 true (by rfl) (Or.inl rfl)⟩

theorem escData : squiggleData ctxEsc sEsc 2 54 1 =
    { startX := 2, startY := 50, distTotal := 4, numSegments := 40, dx := 0,
      dy := 0.1, dx_perp := -1, dy_perp := 0, amplitude := 1,
      freq := 2 * Real.pi } := by
  have h1 : sEsc.prevX = 2 := rfl
  have h2 : sEsc.prevY = 50 := rfl
  have ha : ctxEsc.squiggleAmp = 1 := rfl
  have hf : ctxEsc.squiggleFreq = 1 := rfl
  simp only [squiggleData, h1, h2, ha, hf]
  have hd : Real.sqrt (((2 : ℝ) - 2) ^ 2 + ((54 : ℝ) - 50) ^ 2) = 4 := by
    rw [show ((2 : ℝ) - 2) ^ 2 + ((54 : ℝ) - 50) ^ 2 = 4 ^ 2 by norm_num]
    exact Real.sqrt_sq (by norm_num)
  rw [hd]
  have hn : max 2 (⌊(4 : ℝ) / 0.1⌋).toNat = 40 := by
    rw [show (4 : ℝ) / 0.1 = 40 by norm_num,
      show ((40 : ℝ)) = ((40 : ℤ) : ℝ) by norm_num, Int.floor_intCast]
    rfl
  rw [hn]
  have hnorm : Real.sqrt ((((2 : ℝ) - 2) / ((40 : ℕ) : ℝ)) ^ 2 +
      (((54 : ℝ) - 50) / ((40 : ℕ) : ℝ)) ^ 2) = 0.1 := by
    rw [show (((2 : ℝ) - 2) / ((40 : ℕ) : ℝ)) ^ 2 +
      (((54 : ℝ) - 50) / ((40 : ℕ) : ℝ)) ^ 2 = (0.1 : ℝ) ^ 2 by norm_num]
    exact Real.sqrt_sq (by norm_num)
  rw [hnorm]
  simp only [SquigData.mk.injEq]
  norm_num

theorem escPoint : squigglePoint
    { startX := 2, startY := 50, distTotal := 4, numSegments := 40, dx := 0,
      dy := 0.1, dx_perp := -1, dy_perp := 0, amplitude := 1,
      freq := 2 * Real.pi } 0 =
    (2 - Real.sin (0.1 * (2 * Real.pi)), 50.1) := by
  simp only [squigglePoint, Prod.mk.injEq]
  have harg : (((0 : ℕ) : ℝ) + 1) / ((40 : ℕ) : ℝ) * 4 * (2 * Real.pi) =
      0.1 * (2 * Real.pi) := by
    push_cast
    ring_nf
  rw [harg]
  constructor
  · ring
  · norm_num

/-- The first squiggle sub-point escapes the clip square: its x
coordinate lies strictly left of the inner boundary `x = 2`. -/
theorem escPoint_outside :
    ¬isInsideBaseClip ctxEsc (2 - Real.sin (0.1 * (2 * Real.pi))) 50.1 := by
  intro h
  have hpos : 0 < Real.sin (0.1 * (2 * Real.pi)) := by
    apply Real.sin_pos_of_pos_of_lt_pi
    · positivity
    · nlinarith [Real.pi_pos]
  have hle : ctxEsc.centerOffsetX + ctxEsc.innerRadius ≤
      2 - Real.sin (0.1 * (2 * Real.pi)) := h.1
  have h0 : ctxEsc.centerOffsetX = 0 := rfl
  have h2 : ctxEsc.innerRadius = 2 := rfl
  rw [h0, h2] at hle
  linarith

/-- The printing instruction of the first squiggle iteration appears in
the squiggle emission, for any width/feed. -/
theorem escMember (tw tf : ℝ) :
    GInstr.g1 (2 - Real.sin (0.1 * (2 * Real.pi))) 50.1
      (segDist sEsc (2 - Real.sin (0.1 * (2 * Real.pi))) 50.1 * tw *
        ctxEsc.layerHeight / ctxEsc.filArea) tf ∈
    (squiggleMoves ctxEsc sEsc 2 54 tw tf 1).gcode := by
  have hseg : (0.1 : ℝ) ≤ segDist sEsc (2 - Real.sin (0.1 * (2 * Real.pi))) 50.1 := by
    unfold segDist
    have hx : sEsc.prevX = 2 := rfl
    have hy : sEsc.prevY = 50 := rfl
    rw [hx, hy]
    rw [show (0.1 : ℝ) = Real.sqrt (0.1 ^ 2) from (Real.sqrt_sq (by norm_num)).symm]
    apply Real.sqrt_le_sqrt
    nlinarith [sq_nonneg (Real.sin (0.1 * (2 * Real.pi)))]
  have hnoshort : ¬((false : Bool) = true ∨
      segDist sEsc (2 - Real.sin (0.1 * (2 * Real.pi))) 50.1 < 0.01) := by
    rintro (h | h)
    · exact Bool.false_ne_true h
    · linarith
  simp only [squiggleMoves, escData]
  apply foldl_range_head_mem
  · intro st a g hg
    exact mem_writeMove_gcode _ _ _ _ _ _ _ _ g hg
  · norm_num
  · rw [escPoint]
    rw [writeMove_eq_print _ _ _ _ _ _ _ _ hnoshort]
    exact List.mem_cons_self _ _

/-- Negation of C4 at a concrete run: some printing (extruding) artwork
instruction emitted by `doSmartMove` ends outside the base's inner clip
boundary. -/
def ClipViolation (c : ArtCtx) (s : MoveState) (x y : ℝ) : Prop :=
  ∃ px py e f, GInstr.g1 px py e f ∈ (doSmartMove c s x y false).gcode ∧
    ¬isInsideBaseClip c px py

/-- C4 fails as stated: with a base configured, the squiggle branch emits
a printing instruction whose endpoint lies outside the closed inner clip
region (the clip test is applied only to the segment target, not to the
perpendicularly offset sub-points). -/
theorem squiggle_escapes_clip_counterexample :
    ctxEsc.addCircularBase = true ∧ ClipViolation ctxEsc sEsc 2 54 := by
  refine ⟨rfl, ?_⟩
  have hD : sampleDarkness ctxEsc 2 54 = 1 := by
    show getBrightnessAtUV 1 0 0 (fun _ => 0) 2 2 1 ((2 - 0) / 100) ((54 - 0) / 100) = 1
    exact darkness_black _ _
  have hin : isInsideBaseClip ctxEsc 2 54 := by
    show (0 : ℝ) + 2 ≤ 2 ∧ (2 : ℝ) ≤ 0 + 100 - 2 ∧ (0 : ℝ) + 2 ≤ 54 ∧
      (54 : ℝ) ≤ 0 + 100 - 2
    norm_num
  have h1 : ¬(ctxEsc.addCircularBase = true ∧ ¬isInsideBaseClip ctxEsc 2 54) := by
    rintro ⟨-, hno⟩
    exact hno hin
  have h2 : ¬(ctxEsc.textMode = true ∧ (false : Bool) = false) := by
    rintro ⟨hc, -⟩
    exact Bool.false_ne_true hc
  have h3 : ¬((false : Bool) = true ∨ ¬(0.01 < ctxEsc.squiggleAmp) ∨
      sampleDarkness ctxEsc 2 54 < 0.1) := by
    rintro (h | h | h)
    · exact Bool.false_ne_true h
    · exact h (show (0.01 : ℝ) < 1 by norm_num)
    · rw [hD] at h
      norm_num at h
  unfold ClipViolation
  rw [doSmartMove_eq_squiggle ctxEsc sEsc 2 54 false h1 h2 h3, hD]
  exact ⟨2 - Real.sin (0.1 * (2 * Real.pi)), 50.1, _, _,
    escMember (ctxEsc.minW + 1 * (ctxEsc.maxW - ctxEsc.minW))
      (ctxEsc.maxSpeed - 1 * (ctxEsc.maxSpeed - ctxEsc.minSpeed)),
    escPoint_outside⟩

/-- Every instruction produced by a `doSmartMove` call that enters the
squiggle branch either predates the call, or is a travel, or is a printing
move whose feed and extrusion are computed from the ONE darkness value
sampled at the segment's target point `(x, y)` (extrusion
`d * targetW * layerHeight / filArea` for some nonnegative sub-segment
length `d`). -/
def SquiggleSingleSample (c : ArtCtx) (s : MoveState) (x y : ℝ) : Prop :=
  ∀ g ∈ (doSmartMove c s x y false).gcode, g ∈ s.gcode ∨
    (∃ px py f, g = GInstr.g0 px py f) ∨
    (∃ px py dval, 0 ≤ dval ∧
      g = GInstr.g1 px py
        (dval * (c.minW + sampleDarkness c x y * (c.maxW - c.minW)) *
          c.layerHeight / c.filArea)
        (c.maxSpeed - sampleDarkness c x y * (c.maxSpeed - c.minSpeed)))

/-- C5 (amended): in the squiggle branch, darkness is sampled once per
`doSmartMove` call, at the segment's target point; every sub-segment is
emitted with the width and speed derived from that single sample (the
source never resamples at sub-points). -/
theorem doSmartMove_squiggle_single_sample (c : ArtCtx) (s : MoveState) (x y : ℝ)
    (h1 : ¬(c.addCircularBase = true ∧ ¬isInsideBaseClip c x y))
    (h2 : c.textMode = false) (h3 : 0.01 < c.squiggleAmp)
    (h4 : ¬sampleDarkness c x y < 0.1) :
    SquiggleSingleSample c s x y := by
  have ht2 : ¬(c.textMode = true ∧ (false : Bool) = false) := by
    rintro ⟨hc, -⟩
    rw [h2] at hc
    exact Bool.false_ne_true hc
  have h5 : ¬((false : Bool) = true ∨ ¬(0.01 < c.squiggleAmp) ∨
      sampleDarkness c x y < 0.1) := by
    rintro (h | h | h)
    · exact Bool.false_ne_true h
    · exact h h3
    · exact h4 h
  intro g hg
  rw [doSmartMove_eq_squiggle c s x y false h1 ht2 h5] at hg
  unfold squiggleMoves at hg
  exact foldl_gcode_invariant _ _
    (fun st a gg hh => writeMove_new_instr c.layerHeight c.filArea st _ _ _ _ false gg hh)
    _ s g hg

/-- Parameter set of the single-sample counterexample: no base, all
settings as in `ctxEsc` but with a horizontally graded image whose left
pixel column is black (bytes 0) and right column white (bytes 255). -/
noncomputable def grayPixels : ℤ → ℝ :=
  fun idx => if idx / 4 % 2 = 1 then 255 else 0

noncomputable def ctxGray : ArtCtx where
  pathType := PathKind.zigzag
  addCircularBase := false
  offsetX := 0
  offsetY := 0
  printWidth := 100
  printHeight := 100
  printDim := 100
  baseRadius := 50
  centerX := 50
  centerY := 50
  centerOffsetX := 0
  centerOffsetY := 0
  innerRadius := 0
  mirrorimage := false
  textMode := false
  textThreshold := 0.4
  minW := 0.2
  maxW := 0.8
  minSpeed := 600
  maxSpeed := 6000
  gammaVal := 1
  squiggleAmp := 1
  squiggleFreq := 1
  layerHeight := 0.2
  filArea := 1
  imageZoom := 1
  imageOffsetX := 0
  imageOffsetY := 0
  pixels := grayPixels
  anaW := 2
  anaH := 2

/-- Move state of the single-sample counterexample. -/
noncomputable def sGray : MoveState :=
  { prevX := 0, prevY := 50, totalE := 0, gcode := [] }

/-- On the two-column image, darkness is `1 - u` for `u ∈ [0, 1)`,
independently of `v` (both pixel rows are equal). -/
theorem darkness_gray (u v : ℝ) (hu0 : 0 ≤ u) (hu1 : u < 1) :
    getBrightnessAtUV 1 0 0 grayPixels 2 2 1 u v = 1 - u := by
  have hg0 : ∀ idx : ℤ, idx / 4 % 2 = 0 → grayPixels idx = 0 := by
    intro idx h
    simp [grayPixels, h]
  have hg1 : ∀ idx : ℤ, idx / 4 % 2 = 1 → grayPixels idx = 255 := by
    intro idx h
    simp [grayPixels, h]
  simp only [getBrightnessAtUV, pixelBrightness]
  have hus : max 0 (min 1 (u / 1 + 0)) = u := by
    rw [div_one, add_zero, min_eq_right (le_of_lt hu1), max_eq_right hu0]
  rw [hus]
  have hxf : u * (((2 : ℕ) : ℝ) - 1) = u := by
    push_cast
    ring
  rw [hxf]
  have hx0 : ⌊u⌋ = 0 := Int.floor_eq_zero_iff.mpr ⟨hu0, hu1⟩
  rw [hx0]
  have hx1 : min ((0 : ℤ) + 1) (((2 : ℕ) : ℤ) - 1) = 1 := by
    push_cast
    norm_num
  rw [hx1]
  have hcol0 : ∀ py : ℤ,
      (grayPixels ((py * ((2 : ℕ) : ℤ) + 0) * 4) +
        grayPixels ((py * ((2 : ℕ) : ℤ) + 0) * 4 + 1) +
        grayPixels ((py * ((2 : ℕ) : ℤ) + 0) * 4 + 2)) / 3.0 = 0 := by
    intro py
    rw [hg0 _ (by omega), hg0 _ (by omega), hg0 _ (by omega)]
    norm_num
  have hcol1 : ∀ py : ℤ,
      (grayPixels ((py * ((2 : ℕ) : ℤ) + 1) * 4) +
        grayPixels ((py * ((2 : ℕ) : ℤ) + 1) * 4 + 1) +
        grayPixels ((py * ((2 : ℕ) : ℤ) + 1) * 4 + 2)) / 3.0 = 255 := by
    intro py
    rw [hg1 _ (by omega), hg1 _ (by omega), hg1 _ (by omega)]
    norm_num
  rw [hcol0, hcol0, hcol1, hcol1]
  rw [show (1.0 : ℝ) / 1 = 1 by norm_num, Real.rpow_one]
  push_cast
  ring_nf

theorem grayData : squiggleData ctxGray sGray 4 50 0.96 =
    { startX := 0, startY := 50, distTotal := 4, numSegments := 40, dx := 0.1,
      dy := 0, dx_perp := 0, dy_perp := 1, amplitude := 0.96,
      freq := 2 * Real.pi } := by
  have h1 : sGray.prevX = 0 := rfl
  have h2 : sGray.prevY = 50 := rfl
  have ha : ctxGray.squiggleAmp = 1 := rfl
  have hf : ctxGray.squiggleFreq = 1 := rfl
  simp only [squiggleData, h1, h2, ha, hf]
  have hd : Real.sqrt (((4 : ℝ) - 0) ^ 2 + ((50 : ℝ) - 50) ^ 2) = 4 := by
    rw [show ((4 : ℝ) - 0) ^ 2 + ((50 : ℝ) - 50) ^ 2 = 4 ^ 2 by norm_num]
    exact Real.sqrt_sq (by norm_num)
  rw [hd]
  have hn : max 2 (⌊(4 : ℝ) / 0.1⌋).toNat = 40 := by
    rw [show (4 : ℝ) / 0.1 = 40 by norm_num,
      show ((40 : ℝ)) = ((40 : ℤ) : ℝ) by norm_num, Int.floor_intCast]
    rfl
  rw [hn]
  have hnorm : Real.sqrt ((((4 : ℝ) - 0) / ((40 : ℕ) : ℝ)) ^ 2 +
      (((50 : ℝ) - 50) / ((40 : ℕ) : ℝ)) ^ 2) = 0.1 := by
    rw [show (((4 : ℝ) - 0) / ((40 : ℕ) : ℝ)) ^ 2 +
      (((50 : ℝ) - 50) / ((40 : ℕ) : ℝ)) ^ 2 = (0.1 : ℝ) ^ 2 by norm_num]
    exact Real.sqrt_sq (by norm_num)
  rw [hnorm]
  simp only [SquigData.mk.injEq]
  norm_num

theorem grayPoint : squigglePoint
    { startX := 0, startY := 50, distTotal := 4, numSegments := 40, dx := 0.1,
      dy := 0, dx_perp := 0, dy_perp := 1, amplitude := 0.96,
      freq := 2 * Real.pi } 0 =
    (0.1, 50 + Real.sin (0.1 * (2 * Real.pi)) * 0.96) := by
  simp only [squigglePoint, Prod.mk.injEq]
  have harg : (((0 : ℕ) : ℝ) + 1) / ((40 : ℕ) : ℝ) * 4 * (2 * Real.pi) =
      0.1 * (2 * Real.pi) := by
    push_cast
    ring_nf
  rw [harg]
  constructor
  · norm_num
  · ring

/-- The printing instruction of the first squiggle iteration of the
single-sample counterexample appears in the emission, for any
width/feed. -/
theorem grayMember (tw tf : ℝ) :
    GInstr.g1 0.1 (50 + Real.sin (0.1 * (2 * Real.pi)) * 0.96)
      (segDist sGray 0.1 (50 + Real.sin (0.1 * (2 * Real.pi)) * 0.96) * tw *
        ctxGray.layerHeight / ctxGray.filArea) tf ∈
    (squiggleMoves ctxGray sGray 4 50 tw tf 0.96).gcode := by
  have hseg : (0.1 : ℝ) ≤
      segDist sGray 0.1 (50 + Real.sin (0.1 * (2 * Real.pi)) * 0.96) := by
    unfold segDist
    have hx : sGray.prevX = 0 := rfl
    have hy : sGray.prevY = 50 := rfl
    rw [hx, hy]
    apply Real.le_sqrt_of_sq_le
    nlinarith [sq_nonneg (Real.sin (0.1 * (2 * Real.pi)) * 0.96)]
  have hnoshort : ¬((false : Bool) = true ∨
      segDist sGray 0.1 (50 + Real.sin (0.1 * (2 * Real.pi)) * 0.96) < 0.01) := by
    rintro (h | h)
    · exact Bool.false_ne_true h
    · linarith
  simp only [squiggleMoves, grayData]
  apply foldl_range_head_mem
  · intro st a g hg
    exact mem_writeMove_gcode _ _ _ _ _ _ _ _ g hg
  · norm_num
  · rw [grayPoint]
    rw [writeMove_eq_print _ _ _ _ _ _ _ _ hnoshort]
    exact List.mem_cons_self _ _

/-- Negation of C5 at a concrete run: some squiggle sub-segment is
emitted at a feed different from the one derived from a darkness value
freshly sampled at that sub-segment's own endpoint. -/
def FreshSampleViolation (c : ArtCtx) (s : MoveState) (x y : ℝ) : Prop :=
  ∃ px py e f, GInstr.g1 px py e f ∈ (doSmartMove c s x y false).gcode ∧
    f ≠ c.maxSpeed - sampleDarkness c px py * (c.maxSpeed - c.minSpeed)

/-- C5 fails as stated: on a horizontally graded image, the first squiggle
sub-segment of the segment (0,50)-(4,50) is emitted at the feed derived
from the darkness sampled once at the segment target (4,50) (darkness
0.96, feed 816), not at the feed derived from a fresh sample at the
sub-point's own position (darkness 0.999, feed 605.4). -/
theorem squiggle_fixed_sample_counterexample :
    FreshSampleViolation ctxGray sGray 4 50 := by
  have hD : sampleDarkness ctxGray 4 50 = 0.96 := by
    show getBrightnessAtUV 1 0 0 grayPixels 2 2 1 ((4 - 0) / 100) ((50 - 0) / 100) = 0.96
    rw [darkness_gray ((4 - 0) / 100) ((50 - 0) / 100) (by norm_num) (by norm_num)]
    norm_num
  have hFresh : sampleDarkness ctxGray 0.1 (50 + Real.sin (0.1 * (2 * Real.pi)) * 0.96) =
      1 - (0.1 - 0) / 100 := by
    show getBrightnessAtUV 1 0 0 grayPixels 2 2 1 ((0.1 - 0) / 100)
      ((50 + Real.sin (0.1 * (2 * Real.pi)) * 0.96 - 0) / 100) = 1 - (0.1 - 0) / 100
    exact darkness_gray _ _ (by norm_num) (by norm_num)
  have h1 : ¬(ctxGray.addCircularBase = true ∧ ¬isInsideBaseClip ctxGray 4 50) := by
    rintro ⟨hc, -⟩
    exact Bool.false_ne_true hc
  have h2 : ¬(ctxGray.textMode = true ∧ (false : Bool) = false) := by
    rintro ⟨hc, -⟩
    exact Bool.false_ne_true hc
  have h3 : ¬((false : Bool) = true ∨ ¬(0.01 < ctxGray.squiggleAmp) ∨
      sampleDarkness ctxGray 4 50 < 0.1) := by
    rintro (h | h | h)
    · exact Bool.false_ne_true h
    · exact h (show (0.01 : ℝ) < 1 by norm_num)
    · rw [hD] at h
      norm_num at h
  unfold FreshSampleViolation
  rw [doSmartMove_eq_squiggle ctxGray sGray 4 50 false h1 h2 h3, hD]
  refine ⟨0.1, 50 + Real.sin (0.1 * (2 * Real.pi)) * 0.96, _, _,
    grayMember (ctxGray.minW + 0.96 * (ctxGray.maxW - ctxGray.minW))
      (ctxGray.maxSpeed - 0.96 * (ctxGray.maxSpeed - ctxGray.minSpeed)), ?_⟩
  rw [hFresh]
  have hmax : ctxGray.maxSpeed = 6000 := rfl
  have hmin : ctxGray.minSpeed = 600 := rfl
  rw [hmax, hmin]
  norm_num

/-- Concrete instance of the amended C5, at the counterexample's context
and segment. -/
theorem doSmartMove_squiggle_single_sample_witness :
    (0.01 : ℝ) < ctxGray.squiggleAmp ∧ SquiggleSingleSample ctxGray sGray 4 50 := by
  have hD : sampleDarkness ctxGray 4 50 = 0.96 := by
    show getBrightnessAtUV 1 0 0 grayPixels 2 2 1 ((4 - 0) / 100) ((50 - 0) / 100) = 0.96
    rw [darkness_gray ((4 - 0) / 100) ((50 - 0) / 100) (by norm_num) (by norm_num)]
    norm_num
  refine ⟨show (0.01 : ℝ) < 1 by norm_num, ?_⟩
  apply doSmartMove_squiggle_single_sample ctxGray sGray 4 50
  · rintro ⟨hc, -⟩
    exact Bool.false_ne_true hc
  · rfl
  · show (0.01 : ℝ) < 1
    norm_num
  · rw [hD]
    norm_num

/-- Number of iterations of a JS loop
`for (v = start; v <= stop; v += step)` with positive real `step`: the
iterate of index `i` is `start + i * step`. -/
noncomputable def floatIterCount (start stop step : ℝ) : ℕ :=
  if start ≤ stop then (⌊(stop - start) / step⌋).toNat + 1 else 0

/-- The parameter record handed to the base generators by
`processImageCore` (script.js lines 1265-1285), including the shared
`gcode` array and the emission state `prevX`/`prevY`/`totalE`. -/
structure BaseParams where
  gcode : List GInstr
  baseLayers : ℕ
  zOffset : ℝ
  layerHeight : ℝ
  baseRadius : ℝ
  printDim : ℝ
  printWidth : ℝ
  printHeight : ℝ
  baseMargin : ℝ
  centerX : ℝ
  centerY : ℝ
  centerOffsetX : ℝ
  centerOffsetY : ℝ
  offsetX : ℝ
  offsetY : ℝ
  baseSpeed : ℝ
  filArea : ℝ
  prevX : ℝ
  prevY : ℝ
  totalE : ℝ

/-- The emission state mutated by the base generators. -/
structure BaseState where
  gcode : List GInstr
  prevX : ℝ
  prevY : ℝ
  totalE : ℝ

/-- Model of `writeBaseSegment(x, y, customSpeed)` shared by the three base
generators (e.g. script.js lines 691-700): sub-threshold segments are
skipped entirely (no state change), otherwise a printing move of line
width `BASE_LINE_WIDTH = 0.5` is emitted. -/
noncomputable def writeBaseSegment (layerHeight filArea : ℝ) (st : BaseState)
    (x y customSpeed : ℝ) : BaseState :=
  let dist := Real.sqrt ((x - st.prevX) ^ 2 + (y - st.prevY) ^ 2)
  if dist < 0.01 then st
  else
    let vol := dist * 0.5 * layerHeight
    let e := vol / filArea
    { gcode := GInstr.g1 x y e customSpeed :: st.gcode,
      prevX := x, prevY := y, totalE := st.totalE + e }

/-- One circular wall contour of `generateCircularBase` (script.js lines
709-726): `max 60 ⌈2πr/0.5⌉` points on the circle of radius
`baseRadius - w * 0.42`. -/
noncomputable def circularWall (p : BaseParams) (st : BaseState) (w : ℕ) : BaseState :=
  let r := p.baseRadius - (w : ℝ) * 0.42
  let numPoints : ℕ := max 60 (⌈2 * Real.pi * r / 0.5⌉).toNat
  let dAngle := 2 * Real.pi / (numPoints : ℝ)
  let startX := p.centerX + r
  let startY := p.centerY
  let st1 : BaseState :=
    { gcode := GInstr.g0 startX startY 6000 :: st.gcode,
      prevX := startX, prevY := startY, totalE := st.totalE }
  (List.range numPoints).foldl
    (fun s2 i =>
      let angle := ((i : ℝ) + 1) * dAngle
      writeBaseSegment p.layerHeight p.filArea s2 (p.centerX + r * Real.cos angle)
        (p.centerY + r * Real.sin angle) p.baseSpeed) st1

/-- The circular infill of `generateCircularBase` (script.js lines
731-765): boustrophedon chords of the disc of radius
`baseRadius - 3 * 0.42` at 0.45 mm line spacing, the first 10% of the
height at half speed; the direction toggle starting at `goingRight =
true` is encoded as the parity of the iteration index. -/
noncomputable def circularInfill (p : BaseParams) (z : ℝ) (st : BaseState) : BaseState :=
  let fillLimitRadius := p.baseRadius - 3 * 0.42
  let infillTotalHeight := fillLimitRadius * 2
  let firstY := p.centerY - fillLimitRadius
  let st1 : BaseState :=
    { gcode := GInstr.g1e 0.9 3000 :: GInstr.g1z z 1000 ::
        GInstr.g0 p.centerX firstY 6000 :: st.gcode,
      prevX := p.centerX, prevY := firstY, totalE := st.totalE }
  (List.range (floatIterCount (-fillLimitRadius) fillLimitRadius 0.45)).foldl
    (fun s2 i =>
      let yRel := -fillLimitRadius + (i : ℝ) * 0.45
      let xLimit := Real.sqrt (max 0 (fillLimitRadius ^ 2 - yRel ^ 2))
      let xLeft := p.centerX - xLimit
      let xRight := p.centerX + xLimit
      let currentY := p.centerY + yRel
      let currentSpeed := if yRel < -fillLimitRadius + infillTotalHeight * 0.1
        then p.baseSpeed * 0.5 else p.baseSpeed
      if i % 2 = 0 then
        writeBaseSegment p.layerHeight p.filArea
          (writeBaseSegment p.layerHeight p.filArea s2 xLeft currentY currentSpeed)
          xRight currentY currentSpeed
      else
        writeBaseSegment p.layerHeight p.filArea
          (writeBaseSegment p.layerHeight p.filArea s2 xRight currentY currentSpeed)
          xLeft currentY currentSpeed) st1

/-- One layer of `generateCircularBase` (script.js lines 704-766): layer
Z move, three walls, retract and lift, infill, closing lift. -/
noncomputable def circularLayer (p : BaseParams) (st : BaseState) (layer : ℕ) : BaseState :=
  let z := p.zOffset + (layer : ℝ) * p.layerHeight
  let st1 : BaseState := { st with gcode := GInstr.g1z z 1000 :: st.gcode }
  let st2 := (List.range 3).foldl (circularWall p) st1
  let st3 : BaseState := { st2 with
    gcode := GInstr.g0z (z + 0.4) 6000 :: GInstr.g1e (-0.8) 3000 :: st2.gcode }
  let st4 := circularInfill p z st3
  { st4 with gcode := GInstr.g0z (z + 0.5) 6000 :: st4.gcode }

/-- Model of `generateCircularBase(params)` (script.js lines 679-772).  The pair's
second component is the function's return value: the bare `baseMargin`
(script.js line 771). -/
noncomputable def generateCircularBase (p : BaseParams) : BaseState × ℝ :=
  let st0 : BaseState :=
    { gcode := GInstr.comment "; --- Circular Base (Adaptive) ---" :: p.gcode,
      prevX := p.prevX, prevY := p.prevY, totalE := p.totalE }
  ((List.range p.baseLayers).foldl (circularLayer p) st0, p.baseMargin)

/-- One rectangular wall contour, shared by `generateSquareBase` and
`generateRectangularBase` (script.js lines 806-843 and 935-972, which
duplicate the same code): bottom, right, top edges in `max 2 ⌊len/0.5⌋`
sub-segments and the left edge stopping one sub-segment short. -/
noncomputable def rectWall (p : BaseParams) (x0 y0 x1 y1 : ℝ) (st : BaseState) : BaseState :=
  let bottomSegs : ℕ := max 2 (⌊(x1 - x0) / 0.5⌋).toNat
  let rightSegs : ℕ := max 2 (⌊(y1 - y0) / 0.5⌋).toNat
  let stA : BaseState :=
    { gcode := GInstr.g0 x0 y0 6000 :: st.gcode,
      prevX := x0, prevY := y0, totalE := st.totalE }
  let stB := (List.range bottomSegs).foldl (fun s i =>
    writeBaseSegment p.layerHeight p.filArea s
      (x0 + (x1 - x0) * (((i : ℝ) + 1) / (bottomSegs : ℝ))) y0 p.baseSpeed) stA
  let stC := (List.range rightSegs).foldl (fun s i =>
    writeBaseSegment p.layerHeight p.filArea s x1
      (y0 + (y1 - y0) * (((i : ℝ) + 1) / (rightSegs : ℝ))) p.baseSpeed) stB
  let stD := (List.range bottomSegs).foldl (fun s i =>
    writeBaseSegment p.layerHeight p.filArea s
      (x1 - (x1 - x0) * (((i : ℝ) + 1) / (bottomSegs : ℝ))) y1 p.baseSpeed) stC
  (List.range (rightSegs - 1)).foldl (fun s i =>
    writeBaseSegment p.layerHeight p.filArea s x0
      (y1 - (y1 - y0) * (((i : ℝ) + 1) / (rightSegs : ℝ))) p.baseSpeed) stD

/-- The rectangular infill shared by the square and rectangular bases
(script.js lines 849-882 and 977-1008): boustrophedon lines at 0.45 mm
spacing, first 10% of the height at half speed. -/
noncomputable def rectInfill (p : BaseParams) (z fillX0 fillY0 fillX1 fillY1 : ℝ)
    (st : BaseState) : BaseState :=
  let fillHeight := fillY1 - fillY0
  let st1 : BaseState :=
    { gcode := GInstr.g1e 0.9 3000 :: GInstr.g1z z 1000 ::
        GInstr.g0 fillX0 fillY0 6000 :: st.gcode,
      prevX := fillX0, prevY := fillY0, totalE := st.totalE }
  (List.range (floatIterCount fillY0 fillY1 0.45)).foldl
    (fun s2 i =>
      let yRel := fillY0 + (i : ℝ) * 0.45
      let currentSpeed := if yRel - fillY0 < fillHeight * 0.1
        then p.baseSpeed * 0.5 else p.baseSpeed
      if i % 2 = 0 then
        writeBaseSegment p.layerHeight p.filArea
          (writeBaseSegment p.layerHeight p.filArea s2 fillX0 yRel currentSpeed)
          fillX1 yRel currentSpeed
      else
        writeBaseSegment p.layerHeight p.filArea
          (writeBaseSegment p.layerHeight p.filArea s2 fillX1 yRel currentSpeed)
          fillX0 yRel currentSpeed) st1

/-- One layer of a square/rectangular base over the rectangle with corner
`(bx0, by0)` and size `bw × bh`. -/
noncomputable def rectBaseLayer (p : BaseParams) (bx0 by0 bw bh : ℝ)
    (st : BaseState) (layer : ℕ) : BaseState :=
  let z := p.zOffset + (layer : ℝ) * p.layerHeight
  let st1 : BaseState := { st with gcode := GInstr.g1z z 1000 :: st.gcode }
  let st2 := (List.range 3).foldl
    (fun s w => rectWall p (bx0 + (w : ℝ) * 0.42) (by0 + (w : ℝ) * 0.42)
      (bx0 + bw - (w : ℝ) * 0.42) (by0 + bh - (w : ℝ) * 0.42) s) st1
  let st3 : BaseState := { st2 with
    gcode := GInstr.g0z (z + 0.4) 6000 :: GInstr.g1e (-0.8) 3000 :: st2.gcode }
  let innerMargin : ℝ := 3 * 0.42
  let st4 := rectInfill p z (bx0 + innerMargin) (by0 + innerMargin)
    (bx0 + bw - innerMargin) (by0 + bh - innerMargin) st3
  { st4 with gcode := GInstr.g0z (z + 0.5) 6000 :: st4.gcode }

/-- Model of `generateSquareBase(params)` (script.js lines 777-889): square of
side `printDim` at `centerOffset`; returns
`baseMargin + numWalls * wallSpacing = baseMargin + 3 * 0.42`
(script.js line 888). -/
noncomputable def generateSquareBase (p : BaseParams) : BaseState × ℝ :=
  let st0 : BaseState :=
    { gcode := GInstr.comment "; --- Square Base (Adaptive) ---" :: p.gcode,
      prevX := p.prevX, prevY := p.prevY, totalE := p.totalE }
  ((List.range p.baseLayers).foldl
    (rectBaseLayer p p.centerOffsetX p.centerOffsetY p.printDim p.printDim) st0,
    p.baseMargin + 3 * 0.42)

/-- Model of `generateRectangularBase(params)` (script.js lines 894-1016):
rectangle `printWidth × printHeight` at `(offsetX, offsetY)`; returns
`baseMargin + 3 * 0.42` (script.js line 1015). -/
noncomputable def generateRectangularBase (p : BaseParams) : BaseState × ℝ :=
  let st0 : BaseState :=
    { gcode := GInstr.comment "; --- Rectangular Base (Adaptive) ---" :: p.gcode,
      prevX := p.prevX, prevY := p.prevY, totalE := p.totalE }
  ((List.range p.baseLayers).foldl
    (rectBaseLayer p p.offsetX p.offsetY p.printWidth p.printHeight) st0,
    p.baseMargin + 3 * 0.42)

/-- C6 (amended): the square and rectangular base generators return the
inward clip margin `baseMargin + 3 * 0.42` (wall count × wall spacing
plus the configured margin), but the circular generator returns the bare
`baseMargin` without the wall allowance. -/
theorem base_margin_returns (p : BaseParams) :
    (generateSquareBase p).2 = p.baseMargin + 3 * 0.42 ∧
    (generateRectangularBase p).2 = p.baseMargin + 3 * 0.42 ∧
    (generateCircularBase p).2 = p.baseMargin :=
  ⟨rfl, rfl, rfl⟩

/-- Concrete parameter set for the C6 counterexample. -/
noncomputable def pBaseEx : BaseParams where
  gcode := []
  baseLayers := 2
  zOffset := 0.2
  layerHeight := 0.2
  baseRadius := 50
  printDim := 100
  printWidth := 100
  printHeight := 100
  baseMargin := 2
  centerX := 125
  centerY := 125
  centerOffsetX := 75
  centerOffsetY := 75
  offsetX := 75
  offsetY := 75
  baseSpeed := 1800
  filArea := 1
  prevX := 125
  prevY := 125
  totalE := 0

/-- C6 fails as stated: for the circular base generation run with
configured margin 2, the returned inward clip margin is 2, not
`2 + 3 * 0.42`. -/
theorem circular_base_margin_counterexample :
    (generateCircularBase pBaseEx).2 ≠ pBaseEx.baseMargin + 3 * 0.42 := by
  show (2 : ℝ) ≠ 2 + 3 * 0.42
  norm_num

/-- Constant `MAX_LOOP_ITERATIONS` (script.js line 8). -/
def MAX_LOOP_ITERATIONS : ℕ := 100000

/-- Why the spiral loop stopped: the radius reached `maxRadius`, or the
iteration safety cap ran out first. -/
inductive SpiralExit where
  | reached
  | capped
deriving DecidableEq

/-- Control skeleton of the Archimedean spiral loop of `processImageCore`
(script.js lines 1590-1608):
`while (radius < maxRadius && iterations < MAX_LOOP_ITERATIONS)` with
`dTheta = 0.5 / max(0.5, radius)`, `angle += dTheta`,
`radius = (spacing / 2π) * angle`, and an early `break` when
`radius > maxRadius`.  `fuel` is the number of iterations the cap still
allows; the `doSmartMove` emission in the body reads but never writes the
loop variables and is omitted from the control skeleton. -/
noncomputable def spiralLoopGo (spacing maxRadius : ℝ) : ℕ → ℝ → ℝ → SpiralExit
  | 0, radius, _ =>
      if radius < maxRadius then SpiralExit.capped else SpiralExit.reached
  | fuel + 1, radius, angle =>
      if radius < maxRadius then
        let dTheta := 0.5 / max 0.5 radius
        let angle2 := angle + dTheta
        let radius2 := spacing / (2 * Real.pi) * angle2
        if radius2 > maxRadius then SpiralExit.reached
        else spiralLoopGo spacing maxRadius fuel radius2 angle2
      else SpiralExit.reached

/-- The spiral loop started from `radius = 0`, `angle = 0`,
`iterations = 0`. -/
noncomputable def spiralExit (spacing maxRadius : ℝ) : SpiralExit :=
  spiralLoopGo spacing maxRadius MAX_LOOP_ITERATIONS 0 0

theorem spiral_radius_small (θ r : ℝ) (hr : r = 0.1 / (2 * Real.pi) * θ)
    (hθ : 0 ≤ θ) (hb : θ ^ 2 ≤ 6400000) : r < 500 := by
  have h2π : (0 : ℝ) < 2 * Real.pi := by positivity
  have hθle : θ ≤ 2530 := by nlinarith
  have hrθ : r * (2 * Real.pi) = 0.1 * θ := by
    rw [hr]
    field_simp
  have hrnn : 0 ≤ r := by
    rw [hr]
    positivity
  nlinarith [Real.pi_gt_three, hrθ, hθle, hrnn]

theorem spiral_step_sq (θ r : ℝ) (hr : r = 0.1 / (2 * Real.pi) * θ)
    (_hθ : 0 ≤ θ) : (θ + 0.5 / max 0.5 r) ^ 2 ≤ θ ^ 2 + 64 := by
  have h2π : (0 : ℝ) < 2 * Real.pi := by positivity
  have hM : (0.5 : ℝ) ≤ max 0.5 r := le_max_left _ _
  have hMpos : (0 : ℝ) < max 0.5 r := lt_of_lt_of_le (by norm_num) hM
  have hkey : 0.5 * θ ≤ 10 * Real.pi * max 0.5 r := by
    rcases le_total r 0.5 with h | h
    · rw [max_eq_left h]
      have hrθ : r * (2 * Real.pi) = 0.1 * θ := by
        rw [hr]
        field_simp
      nlinarith [Real.pi_gt_three, mul_le_mul_of_nonneg_right h (le_of_lt h2π)]
    · rw [max_eq_right h]
      have : 10 * Real.pi * r = 0.5 * θ := by
        rw [hr]
        field_simp
        ring
      linarith
  have hD1 : 0.5 / max 0.5 r ≤ 1 := by
    rw [div_le_one hMpos]
    linarith
  have hDpos : 0 < 0.5 / max 0.5 r := by positivity
  have hθD : θ * (0.5 / max 0.5 r) ≤ 10 * Real.pi := by
    rw [← mul_div_assoc, div_le_iff₀ hMpos]
    nlinarith [hkey]
  nlinarith [Real.pi_lt_d2, hθD, hD1, hDpos, sq_nonneg (0.5 / max 0.5 r)]

theorem spiralLoopGo_capped :
    ∀ fuel : ℕ, ∀ θ r : ℝ, r = 0.1 / (2 * Real.pi) * θ → 0 ≤ θ →
      θ ^ 2 + (fuel : ℝ) * 64 ≤ 6400000 →
      spiralLoopGo 0.1 500 fuel r θ = SpiralExit.capped := by
  intro fuel
  induction fuel with
  | zero =>
      intro θ r hr hθ hb
      simp only [spiralLoopGo]
      rw [if_pos (spiral_radius_small θ r hr hθ (by push_cast at hb; linarith))]
  | succ fuel ih =>
      intro θ r hr hθ hb
      have hb1 : θ ^ 2 ≤ 6400000 := by
        push_cast at hb
        nlinarith
      have hrlt : r < 500 := spiral_radius_small θ r hr hθ hb1
      have hstep := spiral_step_sq θ r hr hθ
      have hθ2 : 0 ≤ θ + 0.5 / max 0.5 r := by
        have hMpos : (0 : ℝ) < max 0.5 r :=
          lt_of_lt_of_le (by norm_num) (le_max_left _ _)
        positivity
      have hb2 : (θ + 0.5 / max 0.5 r) ^ 2 + (fuel : ℝ) * 64 ≤ 6400000 := by
        push_cast at hb ⊢
        nlinarith
      have hfnn : (0 : ℝ) ≤ (fuel : ℝ) * 64 := by positivity
      have hr2lt : 0.1 / (2 * Real.pi) * (θ + 0.5 / max 0.5 r) < 500 :=
        spiral_radius_small _ _ rfl hθ2 (by linarith)
      simp only [spiralLoopGo]
      rw [if_pos hrlt, if_neg (show ¬0.1 / (2 * Real.pi) * (θ + 0.5 / max 0.5 r) > 500 by
        push_neg
        linarith)]
      exact ih _ _ rfl hθ2 hb2

/-- C7 fails as stated: with the valid parameters spacing 0.1 (the UI
minimum) and maxRadius 500 (print dimension 1000 on a 1000 mm bed), the
spiral loop exhausts all 100000 iterations with the radius still below
maxRadius — the iteration safety cap, not the radius condition, stops the
loop. -/
theorem spiral_cap_binds_counterexample :
    spiralExit 0.1 500 = SpiralExit.capped := by
  unfold spiralExit MAX_LOOP_ITERATIONS
  apply spiralLoopGo_capped 100000 0 0
  · norm_num
  · norm_num
  · push_cast
    norm_num

theorem spiralLoopGo_reached (spacing maxR : ℝ) (hs : 0 < spacing) :
    ∀ fuel : ℕ, ∀ θ r : ℝ, r = spacing / (2 * Real.pi) * θ →
      2 * Real.pi * maxR / spacing - θ ≤ (fuel : ℝ) * (0.5 / max 0.5 maxR) →
      spiralLoopGo spacing maxR fuel r θ = SpiralExit.reached := by
  have h2π : (0 : ℝ) < 2 * Real.pi := by positivity
  have hMpos : (0 : ℝ) < max 0.5 maxR := lt_of_lt_of_le (by norm_num) (le_max_left _ _)
  have hδpos : (0 : ℝ) < 0.5 / max 0.5 maxR := by positivity
  intro fuel
  induction fuel with
  | zero =>
      intro θ r hr hgap
      have hθstar : 2 * Real.pi * maxR / spacing ≤ θ := by
        push_cast at hgap
        linarith
      have hrge : maxR ≤ r := by
        rw [hr]
        rw [div_mul_eq_mul_div, le_div_iff₀ h2π]
        rw [div_le_iff₀ hs] at hθstar
        nlinarith
      simp only [spiralLoopGo]
      rw [if_neg (by push_neg; exact hrge)]
  | succ fuel ih =>
      intro θ r hr hgap
      by_cases hrlt : r < maxR
      · have hdθ : 0.5 / max 0.5 maxR ≤ 0.5 / max 0.5 r := by
          apply div_le_div_of_nonneg_left (by norm_num) _ _
          · exact lt_of_lt_of_le (by norm_num) (le_max_left _ _)
          · exact max_le_max le_rfl (le_of_lt hrlt)
        simp only [spiralLoopGo]
        rw [if_pos hrlt]
        by_cases hbreak : spacing / (2 * Real.pi) * (θ + 0.5 / max 0.5 r) > maxR
        · rw [if_pos hbreak]
        · rw [if_neg hbreak]
          apply ih _ _ rfl
          push_cast at hgap ⊢
          have : (0.5 : ℝ) / max 0.5 maxR ≤ 0.5 / max 0.5 r := hdθ
          nlinarith
      · simp only [spiralLoopGo]
        rw [if_neg hrlt]

/-- C7 (amended): the spiral loop always terminates, but whether the
radius condition or the cap stops it depends on the parameters.  When
the total winding fits under the cap —
`4π · maxRadius · max(0.5, maxRadius) ≤ 100000 · spacing` — the loop
stops because the radius reached `maxRadius`; for valid parameters
violating this bound (e.g. spacing 0.1 with maxRadius 500, see the
counterexample) the iteration cap is the reason the loop stops. -/
theorem spiral_reaches_within_cap (spacing maxR : ℝ) (hs : 0 < spacing)
    (hcond : 4 * Real.pi * maxR * max 0.5 maxR ≤ 100000 * spacing) :
    spiralExit spacing maxR = SpiralExit.reached := by
  unfold spiralExit MAX_LOOP_ITERATIONS
  apply spiralLoopGo_reached spacing maxR hs 100000 0 0 (by ring)
  have hMpos : (0 : ℝ) < max 0.5 maxR := lt_of_lt_of_le (by norm_num) (le_max_left _ _)
  push_cast
  have key : 2 * Real.pi * maxR / spacing ≤ 50000 / max 0.5 maxR := by
    rw [div_le_div_iff₀ hs hMpos]
    nlinarith [hcond]
  calc 2 * Real.pi * maxR / spacing - 0 = 2 * Real.pi * maxR / spacing := by ring
  _ ≤ 50000 / max 0.5 maxR := key
  _ = 100000 * (0.5 / max 0.5 maxR) := by ring

/-- Concrete instance of the amended C7: spacing 2, maxRadius 100 reaches
the target radius within the cap. -/
theorem spiral_reaches_within_cap_witness :
    (0 : ℝ) < 2 ∧ 4 * Real.pi * 100 * max 0.5 100 ≤ 100000 * 2 ∧
    spiralExit 2 100 = SpiralExit.reached := by
  have hc : 4 * Real.pi * 100 * max 0.5 (100 : ℝ) ≤ 100000 * 2 := by
    rw [max_eq_right (by norm_num : (0.5 : ℝ) ≤ 100)]
    nlinarith [Real.pi_lt_d2]
  exact ⟨by norm_num, hc, spiral_reaches_within_cap 2 100 (by norm_num) hc⟩

/-! JS strings are modelled as their character sequences (`List Char`),
so that the template-merging logic is executable in the kernel. -/

/-- Model of `String.prototype.startsWith` on character sequences. -/
def startsWithL : List Char → List Char → Bool
  | _, [] => true
  | [], _ :: _ => false
  | c :: cs, p :: ps => c == p && startsWithL cs ps

/-- Model of `String.prototype.includes` (substring containment) on character
sequences. -/
def includesL : List Char → List Char → Bool
  | [], pat => pat.isEmpty
  | c :: cs, pat => startsWithL (c :: cs) pat || includesL cs pat

/-- Model of the split `template.split` on the newline pattern (script.js line 1987):
consuming a carriage return directly before each newline. -/
def splitLines : List Char → List (List Char)
  | [] => [[]]
  | '\r' :: '\n' :: rest => [] :: splitLines rest
  | '\n' :: rest => [] :: splitLines rest
  | c :: rest =>
      match splitLines rest with
      | [] => [[c]]
      | l :: ls => (c :: l) :: ls

/-- Model of `line.toUpperCase()` (ASCII, as exercised by the markers). -/
def toUpperL (s : List Char) : List Char := s.map Char.toUpper

def startArtMarker : List Char := ";START_ART".data

def endArtMarker : List Char := ";END_ART".data

/-- The marker-scanning loop of `mergeWithTemplate` (script.js lines
1991-2000): the last line whose uppercase form contains each marker wins;
`-1` means not found. -/
def findMarkersGo : List (List Char) → ℕ → Int × Int → Int × Int
  | [], _, acc => acc
  | line :: rest, i, acc =>
      let lu := toUpperL line
      let si := if includesL lu startArtMarker then (i : Int) else acc.1
      let ei := if includesL lu endArtMarker then (i : Int) else acc.2
      findMarkersGo rest (i + 1) (si, ei)

def findMarkers (lines : List (List Char)) : Int × Int :=
  findMarkersGo lines 0 (-1, -1)

/-- Model of `mergeWithTemplate(artGcode)` (script.js lines 1982-2026), with the
loaded template (`appState.gcodeTemplateContent`, `null` or text — the
falsy check also catches the empty string) and the filament-change mode
passed explicitly.  Splices the artwork between the `;START_ART` and
`;END_ART` markers, inserting the manual-pause directive in manual mode;
falls back to appending when the start marker is missing. -/
def mergeWithTemplate (gcodeTemplateContent : Option (List Char))
    (filamentChangeMode : List Char) (artGcode : List Char) : List Char :=
  match gcodeTemplateContent with
  | none => artGcode
  | some content =>
      if content = [] then artGcode
      else
        let lines := splitLines content
        let acc := findMarkers lines
        let startIndex := acc.1
        let endIndex := acc.2
        if startIndex = -1 then
          content ++ "\n".data ++ artGcode
        else
          let header := List.intercalate "\n".data (lines.take (startIndex.toNat + 1))
          let footer :=
            if endIndex ≠ -1 ∧ endIndex > startIndex then
              List.intercalate "\n".data (lines.drop endIndex.toNat)
            else
              List.intercalate "\n".data (lines.drop (startIndex.toNat + 1))
          let changeCommand :=
            if filamentChangeMode = "manual".data then
              "\n; --- MANUAL PAUSE ---\nM600\n".data
            else []
          header ++ changeCommand ++ "\n; --- START ARTWORK ---\n".data ++ artGcode ++
            "\n; --- END ARTWORK ---\n".data ++ footer

/-- C10: with no template loaded, `mergeWithTemplate` is the identity on
the artwork block — no markers, directive, header or footer are added. -/
theorem mergeWithTemplate_none_identity (mode art : List Char) :
    mergeWithTemplate none mode art = art := rfl

/-- C8 fails as stated in the empty-directive modes: in mode `"ams"` the
merged output of the round-trip template is NOT
`header "A\n;START_ART\n" ++ empty directive ++
"\n; --- START ARTWORK ---\nART\n; --- END ARTWORK ---\n" ++
";END_ART\nB"` — the code emits no blank line after the start-marker
line, while the claimed format forces one. -/
theorem merge_empty_directive_counterexample :
    mergeWithTemplate (some "A\n;START_ART\nX\n;END_ART\nB".data) "ams".data
        "ART".data ≠
      "A\n;START_ART\n".data ++ ([] : List Char) ++
        "\n; --- START ARTWORK ---\nART\n; --- END ARTWORK ---\n".data ++
        ";END_ART\nB".data := by
  decide

/-- C8 (amended): on the round-trip template the merged output is the
header `"A\n;START_ART"` directly followed by the change directive
(`"\n; --- MANUAL PAUSE ---\nM600\n"` in manual mode, empty otherwise),
then `"\n; --- START ARTWORK ---\nART\n; --- END ARTWORK ---\n"` and the
footer `";END_ART\nB"`.  In manual mode this coincides with the claimed
format; in the empty-directive modes the claimed extra newline after the
start-marker line is absent. -/
theorem merge_template_characterization (mode : List Char) :
    mergeWithTemplate (some "A\n;START_ART\nX\n;END_ART\nB".data) mode "ART".data =
      if mode = "manual".data then
        ("A\n;START_ART" ++ "\n; --- MANUAL PAUSE ---\nM600\n" ++
          "\n; --- START ARTWORK ---\nART\n; --- END ARTWORK ---\n" ++
          ";END_ART\nB").data
      else
        ("A\n;START_ART" ++ "\n; --- START ARTWORK ---\nART\n; --- END ARTWORK ---\n" ++
          ";END_ART\nB").data := by
  by_cases h : mode = "manual".data
  · rw [if_pos h, h]
    decide
  · rw [if_neg h]
    simp only [mergeWithTemplate]
    rw [if_neg (show ¬"A\n;START_ART\nX\n;END_ART\nB".data = [] by decide)]
    rw [if_neg (show ¬(findMarkers (splitLines "A\n;START_ART\nX\n;END_ART\nB".data)).1
      = -1 by decide)]
    rw [if_neg h]
    decide

/-- C9 fails on the empty loaded template: the falsy check returns the
bare artwork block, not `template ++ "\n" ++ artwork`. -/
theorem merge_empty_template_counterexample :
    mergeWithTemplate (some "".data) "manual".data "ART".data = "ART".data ∧
    "ART".data ≠ "".data ++ "\n".data ++ "ART".data := by
  decide

theorem findMarkersGo_fst (lines : List (List Char)) :
    ∀ (i : ℕ) (acc : Int × Int),
      (∀ l ∈ lines, includesL (toUpperL l) startArtMarker = false) →
      (findMarkersGo lines i acc).1 = acc.1 := by
  induction lines with
  | nil => intro i acc _; rfl
  | cons line rest ih =>
      intro i acc hall
      have h1 : includesL (toUpperL line) startArtMarker = false :=
        hall line (List.mem_cons_self _ _)
      simp only [findMarkersGo, h1]
      rw [if_neg (by simp)]
      exact ih (i + 1) _ (fun l hl => hall l (List.mem_cons_of_mem _ hl))

/-- C9 (amended): for a NONEMPTY loaded template none of whose lines
contains `;START_ART` (case-insensitively), the merge is non-fatal and
returns the entire original template followed by a newline and the
artwork block — nothing is spliced or dropped, and no markers or change
directive are inserted.  (The empty loaded template is the exception: the
falsy guard returns the bare artwork block, see the counterexample.) -/
theorem merge_missing_marker_fallback (t mode art : List Char) (hne : t ≠ [])
    (hmark : (splitLines t).all
      (fun l => !includesL (toUpperL l) startArtMarker) = true) :
    mergeWithTemplate (some t) mode art = t ++ "\n".data ++ art := by
  have hall : ∀ l ∈ splitLines t, includesL (toUpperL l) startArtMarker = false := by
    intro l hl
    have := List.all_eq_true.mp hmark l hl
    simpa using this
  have hstart : (findMarkers (splitLines t)).1 = -1 :=
    findMarkersGo_fst (splitLines t) 0 (-1, -1) hall
  simp only [mergeWithTemplate]
  rw [if_neg hne, if_pos hstart]

/-- Concrete instance of the amended C9 on the marker-less template
`"G28"`. -/
theorem merge_missing_marker_fallback_witness :
    ("G28".data ≠ ([] : List Char)) ∧
    ((splitLines "G28".data).all
      (fun l => !includesL (toUpperL l) startArtMarker) = true) ∧
    mergeWithTemplate (some "G28".data) "manual".data "X1".data =
      "G28".data ++ "\n".data ++ "X1".data :=
  ⟨by decide, by decide,
    merge_missing_marker_fallback "G28".data "manual".data "X1".data
      (by decide) (by decide)⟩

end GArt
